import Mathlib

/-!
Shallow embedding of `src/Lab Work № 4/app/main.py` — a points-based merch
store (FastAPI, in-memory state).

Modelling conventions:
* Machine integers of Python are unbounded `Int` (Python ints are arbitrary
  precision); ids and sequence counters are `Nat` (they start at 1 and only
  increase).
* Every endpoint is a pure state-passing function
  `State → args → State × Except ApiError α`; the returned state is the
  content of the global tables after the call, including mutations performed
  before an exception was raised (this matters: `create_product` bumps
  `product_id_seq` before its validation checks).
* The Russian status strings of the source are an inductive type:
  `novyi` = "Новый", `naProverke` = "На проверке", `sborka` = "Сборка",
  `gotovKVydache` = "Готов к выдаче", `zavershen` = "Завершен",
  `otmenen` = "Отменен".
* Wall-clock timestamps (`created_at`, `updated_at`, `ts` of ledger and
  history entries) are omitted: they are real time, outside the embedding,
  and no claim concerns them.
* In the source, `products[pid]["variants"]` aliases the dicts stored in
  `variants_by_sku`; the model keeps the live variant data in
  `variants_by_sku` only and stores the list of SKUs in the product record.
* A dictionary access `variants_by_sku[sku]` on a missing key raises
  `KeyError` in Python (an unhandled 500). In `check_items`/`check_skus`
  this is modelled by `ApiError.keyError`. In the pure mutation loops
  (`reserve_items`, `unreserve_items`, `deduct_items`) a missing key is
  skipped; in the source those loops run only on SKUs whose presence was
  established (reservation runs after `check_items`, and orders only ever
  reference SKUs that exist and are never deleted), so the skipped branch is
  dead on every state the theorems below quantify over.
* Pydantic request validation (`conint`, `min_length`) happens before the
  handler body runs and leaves the state untouched; it is modelled by the
  `_ep` endpoint wrappers returning `ApiError.validationError`.
* The ledger entry appended by `create_order` is created with
  `order_id = None` and backfilled with the fresh order id before the
  handler returns; the model appends it with the id directly (the
  intermediate value is never observable).
-/

namespace Merch

inductive OrderStatus where
  | novyi
  | naProverke
  | sborka
  | gotovKVydache
  | zavershen
  | otmenen
deriving DecidableEq, Repr

inductive ApiError where
  | forbidden
  | validationError
  | notFound
  | skuExists
  | skuNotFound
  | insufficientPoints
  | insufficientStock
  | invalidStatusTransition
  | cancelNotAllowed
  | keyError
deriving DecidableEq, Repr

structure Variant where
  sku : String
  size : Option String
  color : Option String
  price_points : Int
  stock_total : Int
  reserved : Int
  product_id : Nat
deriving DecidableEq, Repr

structure Product where
  id : Nat
  name : String
  description : String
  images : List String
  variant_skus : List String
deriving DecidableEq, Repr

structure OrderItem where
  sku : String
  qty : Int
  unit_points : Int
  line_points : Int
deriving DecidableEq, Repr

structure HistoryEntry where
  from_status : Option OrderStatus
  to_status : OrderStatus
  by_role : Option String
deriving DecidableEq, Repr

structure Order where
  id : Nat
  user_id : String
  status : OrderStatus
  items : List OrderItem
  total_points : Int
  history : List HistoryEntry
  reserved : Bool
deriving DecidableEq, Repr

structure LedgerEntry where
  user_id : String
  delta : Int
  reason : String
  order_id : Option Nat
deriving DecidableEq, Repr

/-- Map from SKU to variant, the model of the `variants_by_sku` dict. -/
abbrev VariantMap := String → Option Variant

/-- The whole mutable global state of `main.py`. -/
structure State where
  product_id_seq : Nat
  order_id_seq : Nat
  products : List Product
  variants_by_sku : VariantMap
  orders : List Order
  user_points : String → Int
  ledger : List LedgerEntry

/-- Initial state of the module: empty tables, both sequences at 1,
seeded balances `u1 ↦ 5000`, `u2 ↦ 2000` (reads use `.get(uid, 0)`). -/
def initState : State where
  product_id_seq := 1
  order_id_seq := 1
  products := []
  variants_by_sku := fun _ => none
  orders := []
  user_points := fun u => if u = "u1" then 5000 else if u = "u2" then 2000 else 0
  ledger := []

/- ---- request models (pydantic) ---- -/

structure VariantIn where
  sku : String
  size : Option String
  color : Option String
  price_points : Int
  stock_total : Int
deriving DecidableEq, Repr

structure ProductCreate where
  name : String
  description : String
  images : List String
  variants : List VariantIn
deriving DecidableEq, Repr

structure OrderItemIn where
  sku : String
  qty : Int
deriving DecidableEq, Repr

structure OrderCreate where
  items : List OrderItemIn
deriving DecidableEq, Repr

/-- Pydantic constraints of `VariantIn`: `sku` nonempty, `price_points ≥ 0`,
`stock_total ≥ 0`. -/
def validVariantIn (v : VariantIn) : Bool :=
  1 ≤ v.sku.length && 0 ≤ v.price_points && 0 ≤ v.stock_total

/-- Pydantic constraints of `ProductCreate`: nonempty `name`, valid variants. -/
def validProductCreate (p : ProductCreate) : Bool :=
  1 ≤ p.name.length && p.variants.all validVariantIn

/-- Pydantic constraints of `OrderItemIn`: `sku` nonempty, `1 ≤ qty ≤ 1000`. -/
def validOrderItemIn (it : OrderItemIn) : Bool :=
  1 ≤ it.sku.length && 1 ≤ it.qty && it.qty ≤ 1000

/-- Pydantic constraints of `OrderCreate`: at least one item, valid items. -/
def validOrderCreate (p : OrderCreate) : Bool :=
  !p.items.isEmpty && p.items.all validOrderItemIn

/- ---- transition table ---- -/

/-- The `ALLOWED_TRANSITIONS` dict. -/
def ALLOWED_TRANSITIONS : OrderStatus → List OrderStatus
  | .novyi => [.naProverke, .otmenen]
  | .naProverke => [.sborka, .otmenen]
  | .sborka => [.gotovKVydache]
  | .gotovKVydache => [.zavershen]
  | .zavershen => []
  | .otmenen => []

/-- The `CANCEL_ALLOWED` set. -/
def CANCEL_ALLOWED : List OrderStatus := [.novyi, .naProverke]

/- ---- helpers over the variant map and the orders table ---- -/

/-- Update the variant stored at `k` in place (no-op when absent; the source
would raise `KeyError`, see the header comment). -/
def updVariant (m : VariantMap) (k : String) (f : Variant → Variant) : VariantMap :=
  fun k' => if k' = k then (m k).map f else m k'

/-- First pass of `reserve_for_order`: check `available ≥ qty` for every line
against the current committed state, without mutating anything. -/
def check_items (m : VariantMap) : List OrderItem → Except ApiError Unit
  | [] => .ok ()
  | it :: rest =>
    match m it.sku with
    | none => .error .keyError
    | some v =>
      if v.stock_total - v.reserved < it.qty then .error .insufficientStock
      else check_items m rest

/-- Second pass of `reserve_for_order`: `v["reserved"] += qty` per line. -/
def reserve_items (m : VariantMap) (items : List OrderItem) : VariantMap :=
  items.foldl (fun acc it => updVariant acc it.sku
    (fun v => { v with reserved := v.reserved + it.qty })) m

/-- Loop of `unreserve_for_order`: `v["reserved"] = max(0, reserved - qty)`. -/
def unreserve_items (m : VariantMap) (items : List OrderItem) : VariantMap :=
  items.foldl (fun acc it => updVariant acc it.sku
    (fun v => { v with reserved := max 0 (v.reserved - it.qty) })) m

/-- Loop of `deduct_stock_on_complete`: `stock_total -= qty` (no floor) and
`reserved = max(0, reserved - qty)`. -/
def deduct_items (m : VariantMap) (items : List OrderItem) : VariantMap :=
  items.foldl (fun acc it => updVariant acc it.sku
    (fun v => { v with stock_total := v.stock_total - it.qty,
                       reserved := max 0 (v.reserved - it.qty) })) m

/-- `orders.get(order_id)`. -/
def find_order (l : List Order) (oid : Nat) : Option Order :=
  l.find? (fun o => o.id == oid)

/-- Write an order value back into the table slot `oid` (the source mutates
the dict stored under that key in place). -/
def set_order (l : List Order) (oid : Nat) (o2 : Order) : List Order :=
  l.map (fun o => if o.id = oid then o2 else o)

/- ---- order helpers of the source ---- -/

/-- `reserve_for_order`: no-op on an already-reserved order; otherwise
check-then-act over all lines (all-or-nothing). On error nothing was
mutated (the source raises inside the read-only first pass). -/
def reserve_for_order (s : State) (o : Order) : Except ApiError (State × Order) :=
  if o.reserved then .ok (s, o)
  else
    match check_items s.variants_by_sku o.items with
    | .error e => .error e
    | .ok _ =>
      .ok ({ s with variants_by_sku := reserve_items s.variants_by_sku o.items },
           { o with reserved := true })

/-- `unreserve_for_order`: release the reservation, floored at 0; no-op when
the order is not reserved. Never fails. -/
def unreserve_for_order (s : State) (o : Order) : State × Order :=
  if o.reserved then
    ({ s with variants_by_sku := unreserve_items s.variants_by_sku o.items },
     { o with reserved := false })
  else (s, o)

/-- `deduct_stock_on_complete`: reserve first when not reserved, then remove
the quantities from both `stock_total` and `reserved`. -/
def deduct_stock_on_complete (s : State) (o : Order) : Except ApiError (State × Order) :=
  match (if o.reserved then .ok (s, o) else reserve_for_order s o) with
  | .error e => .error e
  | .ok (s1, o1) =>
    .ok ({ s1 with variants_by_sku := deduct_items s1.variants_by_sku o1.items },
         { o1 with reserved := false })

/-- `refund_points`: credit the owner with `total_points` and append an
`ORDER_CANCELLED` ledger entry. -/
def refund_points (s : State) (o : Order) : State :=
  { s with
    user_points := fun u =>
      if u = o.user_id then s.user_points o.user_id + o.total_points
      else s.user_points u,
    ledger := s.ledger ++ [⟨o.user_id, o.total_points, "ORDER_CANCELLED", some o.id⟩] }

/- ---- endpoint handlers ---- -/

/-- Handler body of `POST /api/v1/products`. Note the id sequence is bumped
before the duplicate-SKU checks, so those error paths leave the counter
incremented. -/
def create_product (s : State) (p : ProductCreate) (x_role : Option String) :
    State × Except ApiError Product :=
  if x_role ≠ some "content_admin" then (s, .error .forbidden) else
  let pid := s.product_id_seq
  let s1 := { s with product_id_seq := pid + 1 }
  let req_skus := p.variants.map (·.sku)
  if ¬ req_skus.Nodup then (s1, .error .validationError)
  else if req_skus.any (fun k => (s1.variants_by_sku k).isSome) then (s1, .error .skuExists)
  else
    let new_variants : List Variant :=
      p.variants.map (fun v => ⟨v.sku, v.size, v.color, v.price_points, v.stock_total, 0, pid⟩)
    let product : Product := ⟨pid, p.name, p.description, p.images, req_skus⟩
    ({ s1 with
        variants_by_sku :=
          new_variants.foldl (fun m v => fun k => if k = v.sku then some v else m k)
            s1.variants_by_sku,
        products := s1.products ++ [product] },
     .ok product)

/-- First loop of `create_order`: every SKU must resolve. -/
def check_skus (m : VariantMap) : List OrderItemIn → Except ApiError Unit
  | [] => .ok ()
  | it :: rest =>
    if (m it.sku).isSome then check_skus m rest else .error .skuNotFound

/-- Second loop of `create_order`: snapshot prices into line items. The
`none` branch is dead after `check_skus` succeeded on the same state. -/
def price_items (m : VariantMap) (items : List OrderItemIn) : List OrderItem :=
  items.map (fun it =>
    match m it.sku with
    | some v => ⟨it.sku, it.qty, v.price_points, v.price_points * it.qty⟩
    | none => ⟨it.sku, it.qty, 0, 0⟩)

/-- Running total accumulated by the pricing loop. -/
def order_total (items : List OrderItem) : Int :=
  (items.map (·.line_points)).sum

/-- Handler body of `POST /api/v1/orders` (checkout). -/
def create_order (s : State) (p : OrderCreate) (x_role x_user_id : Option String) :
    State × Except ApiError Order :=
  if x_role ≠ some "buyer" then (s, .error .forbidden) else
  match x_user_id with
  | none => (s, .error .validationError)
  | some uid =>
    if uid = "" then (s, .error .validationError) else
    match check_skus s.variants_by_sku p.items with
    | .error e => (s, .error e)
    | .ok _ =>
      let items_out := price_items s.variants_by_sku p.items
      let total := order_total items_out
      let balance := s.user_points uid
      if balance < total then (s, .error .insufficientPoints)
      else
        let oid := s.order_id_seq
        let order : Order := ⟨oid, uid, .novyi, items_out, total, [⟨none, .novyi, x_role⟩], false⟩
        ({ s with
            user_points := fun u => if u = uid then balance - total else s.user_points u,
            ledger := s.ledger ++ [⟨uid, -total, "ORDER_CREATED", some oid⟩],
            order_id_seq := oid + 1,
            orders := s.orders ++ [order] },
         .ok order)

/-- Commit a status change: set the new status, append the history entry and
write the order back into the table. Shared tail of `update_order_status`
and `cancel_order` (both endpoints append the same shaped history record). -/
def finish_transition (s1 : State) (o1 : Order) (oid : Nat)
    (current target : OrderStatus) (x_role : Option String) :
    State × Except ApiError Order :=
  let o2 := { o1 with status := target,
                      history := o1.history ++ [⟨some current, target, x_role⟩] }
  ({ s1 with orders := set_order s1.orders oid o2 }, .ok o2)

/-- Handler body of `PUT /api/v1/orders/{order_id}/status`. -/
def update_order_status (s : State) (oid : Nat) (target : OrderStatus)
    (x_role : Option String) : State × Except ApiError Order :=
  if x_role ≠ some "fulfillment_admin" then (s, .error .forbidden) else
  match find_order s.orders oid with
  | none => (s, .error .notFound)
  | some order =>
    if target ∈ ALLOWED_TRANSITIONS order.status then
      if target = .naProverke then
        match reserve_for_order s order with
        | .error e => (s, .error e)
        | .ok (s1, o1) => finish_transition s1 o1 oid order.status target x_role
      else if target = .otmenen then
        if order.status ∈ CANCEL_ALLOWED then
          let p1 := unreserve_for_order s order
          let s2 := refund_points p1.1 p1.2
          finish_transition s2 p1.2 oid order.status target x_role
        else (s, .error .cancelNotAllowed)
      else if target = .zavershen then
        match deduct_stock_on_complete s order with
        | .error e => (s, .error e)
        | .ok (s1, o1) => finish_transition s1 o1 oid order.status target x_role
      else finish_transition s order oid order.status target x_role
    else (s, .error .invalidStatusTransition)

/-- Shared cancellation tail of `cancel_order`: guard on `CANCEL_ALLOWED`,
release the reservation, refund the points, commit status `otmenen`. -/
def cancel_commit (s : State) (order : Order) (oid : Nat) (x_role : Option String) :
    State × Except ApiError Order :=
  if order.status ∈ CANCEL_ALLOWED then
    let p1 := unreserve_for_order s order
    let s2 := refund_points p1.1 p1.2
    finish_transition s2 p1.2 oid order.status .otmenen x_role
  else (s, .error .cancelNotAllowed)

/-- Handler body of `DELETE /api/v1/orders/{order_id}`. -/
def cancel_order (s : State) (oid : Nat) (x_role x_user_id : Option String) :
    State × Except ApiError Order :=
  if ¬ (x_role = some "buyer" ∨ x_role = some "fulfillment_admin") then
    (s, .error .forbidden)
  else
    match find_order s.orders oid with
    | none => (s, .error .notFound)
    | some order =>
      if x_role = some "buyer" then
        match x_user_id with
        | none => (s, .error .validationError)
        | some uid =>
          if uid = "" then (s, .error .validationError)
          else if order.user_id ≠ uid then (s, .error .forbidden)
          else cancel_commit s order oid x_role
      else cancel_commit s order oid x_role

/- ---- endpoints with pydantic validation in front ---- -/

/-- `POST /api/v1/products` including request validation. -/
def create_product_ep (s : State) (p : ProductCreate) (x_role : Option String) :
    State × Except ApiError Product :=
  if validProductCreate p then create_product s p x_role
  else (s, .error .validationError)

/-- `POST /api/v1/orders` including request validation. -/
def create_order_ep (s : State) (p : OrderCreate) (x_role x_user_id : Option String) :
    State × Except ApiError Order :=
  if validOrderCreate p then create_order s p x_role x_user_id
  else (s, .error .validationError)

/- ---- step relation and reachability ---- -/

/-- One core operation, with arbitrary arguments, applied through the
validated endpoints (read-only endpoints do not change the state). -/
inductive Step : State → State → Prop where
  | create_product (s : State) (p : ProductCreate) (r : Option String) :
      Step s (create_product_ep s p r).1
  | create_order (s : State) (p : OrderCreate) (r u : Option String) :
      Step s (create_order_ep s p r u).1
  | update_order_status (s : State) (oid : Nat) (t : OrderStatus) (r : Option String) :
      Step s (update_order_status s oid t r).1
  | cancel_order (s : State) (oid : Nat) (r u : Option String) :
      Step s (cancel_order s oid r u).1

/-- Any number of core operations. -/
def Steps : State → State → Prop := Relation.ReflTransGen Step

/-- States reachable from module start through the public endpoints. -/
def Reachable (s : State) : Prop := Steps initState s

/-- Like `Step`, but checkout requests are restricted to item lists with
pairwise-distinct SKUs (the restriction under which the stock invariant of
the spec actually holds, see C2). -/
inductive StepND : State → State → Prop where
  | create_product (s : State) (p : ProductCreate) (r : Option String) :
      StepND s (create_product_ep s p r).1
  | create_order (s : State) (p : OrderCreate) (r u : Option String)
      (hnd : (p.items.map (·.sku)).Nodup) :
      StepND s (create_order_ep s p r u).1
  | update_order_status (s : State) (oid : Nat) (t : OrderStatus) (r : Option String) :
      StepND s (update_order_status s oid t r).1
  | cancel_order (s : State) (oid : Nat) (r u : Option String) :
      StepND s (cancel_order s oid r u).1

/-- Reachability with duplicate-free checkout requests. -/
def ReachableND (s : State) : Prop := Relation.ReflTransGen StepND initState s

/- ---- observation functions used by the claims ---- -/

/-- Sum of the quantities of an order's lines for one SKU. -/
def item_add (items : List OrderItem) (k : String) : Int :=
  ((items.filter (fun it => it.sku == k)).map (·.qty)).sum

/-- Contribution of one order to a SKU's reservation counter. -/
def contrib (o : Order) (k : String) : Int :=
  if o.reserved then item_add o.items k else 0

/-- Total reservation owed on a SKU by the orders table. -/
def res_sum (l : List Order) (k : String) : Int :=
  (l.map (fun o => contrib o k)).sum

/-- Number of `ORDER_CANCELLED` ledger entries charged to one order id. -/
def cancel_count (l : List LedgerEntry) (oid : Nat) : Nat :=
  l.countP (fun e => e.reason == "ORDER_CANCELLED" && e.order_id == some oid)

/-- Sum of the ledger deltas of one user. -/
def ledger_sum (l : List LedgerEntry) (u : String) : Int :=
  ((l.filter (fun e => e.user_id == u)).map (·.delta)).sum

/- ---- pointwise characterizations of the variant-map loops ---- -/

/-- Quantities of an order's lines for one SKU, in list order. -/
def qtys (items : List OrderItem) (k : String) : List Int :=
  (items.filter (fun it => it.sku == k)).map (·.qty)

/-- Sequential floored subtraction, the per-SKU effect of the
unreserve/deduct loops on the `reserved` counter. -/
def sub_chain (r : Int) (qs : List Int) : Int :=
  qs.foldl (fun a q => max 0 (a - q)) r

/-- Bookkeeping invariant of every reachable state: order ids are below the
sequence counter and pairwise distinct, every `ORDER_CANCELLED` ledger entry
refunds the full total of an existing order to its owner, an order has
exactly one such entry iff it is cancelled, and ledger sums reconstruct
balances from the seeds. -/
def InvB (s : State) : Prop :=
  (∀ o ∈ s.orders, o.id < s.order_id_seq) ∧
  ((s.orders.map (·.id)).Nodup) ∧
  (∀ e ∈ s.ledger, e.reason = "ORDER_CANCELLED" →
     ∃ o, o ∈ s.orders ∧ e.order_id = some o.id ∧
       e.delta = o.total_points ∧ e.user_id = o.user_id) ∧
  (∀ o ∈ s.orders, cancel_count s.ledger o.id = if o.status = .otmenen then 1 else 0) ∧
  (∀ u, ledger_sum s.ledger u = s.user_points u - initState.user_points u)

/-- Stock bookkeeping that holds when every checkout request lists each SKU
at most once: order items are duplicate-free with positive quantities over
existing SKUs, each `reserved` counter equals the total reservation owed by
the orders table, and `reserved ≤ stock_total`. -/
def NDP (s : State) : Prop :=
  (∀ o ∈ s.orders, (o.items.map (·.sku)).Nodup) ∧
  (∀ o ∈ s.orders, ∀ it ∈ o.items, 1 ≤ it.qty) ∧
  (∀ o ∈ s.orders, ∀ it ∈ o.items, (s.variants_by_sku it.sku).isSome = true) ∧
  (∀ k v, s.variants_by_sku k = some v → v.reserved = res_sum s.orders k) ∧
  (∀ k v, s.variants_by_sku k = some v → v.reserved ≤ v.stock_total)

/-- Base invariant together with the duplicate-free stock invariant. -/
def InvND (s : State) : Prop := InvB s ∧ NDP s

/- ---- concrete scenario data ---- -/

/-- Product-creation request of the walkthrough scenario: one variant
`TSHIRT-M` at 100 points with stock 10. -/
def prodA : ProductCreate := ⟨"Shirt", "", [], [⟨"TSHIRT-M", none, none, 100, 10⟩]⟩

/-- Checkout request of the walkthrough scenario: three shirts. -/
def payA : OrderCreate := ⟨[⟨"TSHIRT-M", 3⟩]⟩

/-- The freshly created shirt variant. -/
def vA : Variant := ⟨"TSHIRT-M", none, none, 100, 10, 0, 1⟩

/-- State after creating the shirt product. -/
def sA1 : State := (create_product_ep initState prodA (some "content_admin")).1

/-- State after the checkout of three shirts by `u1`. -/
def sA2 : State := (create_order_ep sA1 payA (some "buyer") (some "u1")).1

/-- The order created by that checkout. -/
def oA : Order :=
  ⟨1, "u1", .novyi, [⟨"TSHIRT-M", 3, 100, 300⟩], 300,
   [⟨none, .novyi, some "buyer"⟩], false⟩

/-- The same order already holding a reservation. -/
def oAr : Order :=
  ⟨1, "u1", .novyi, [⟨"TSHIRT-M", 3, 100, 300⟩], 300,
   [⟨none, .novyi, some "buyer"⟩], true⟩

/-- The order after the buyer cancelled it. -/
def oAc : Order :=
  ⟨1, "u1", .otmenen, [⟨"TSHIRT-M", 3, 100, 300⟩], 300,
   [⟨none, .novyi, some "buyer"⟩, ⟨some .novyi, .otmenen, some "buyer"⟩], false⟩

/-- State after the buyer cancelled the order. -/
def sA3c : State := (cancel_order sA2 1 (some "buyer") (some "u1")).1

/-- Checkout request with an out-of-range quantity. -/
def payBig : OrderCreate := ⟨[⟨"TSHIRT-M", 2000⟩]⟩

/-- Product-creation request repeating one SKU on two lines; it is rejected,
but only after the id sequence was advanced. -/
def prodDup : ProductCreate :=
  ⟨"P", "", [], [⟨"B", none, none, 1, 5⟩, ⟨"B", none, none, 1, 5⟩]⟩

/-- State after the rejected duplicate-SKU product creation. -/
def sB1 : State := (create_product_ep initState prodDup (some "content_admin")).1

/-- Product-creation request for SKU "A" at 1 point with stock 5. -/
def prodC : ProductCreate := ⟨"P", "", [], [⟨"A", none, none, 1, 5⟩]⟩

/-- Checkout request naming SKU "A" on two separate lines, three units each. -/
def payDup : OrderCreate := ⟨[⟨"A", 3⟩, ⟨"A", 3⟩]⟩

/-- State after creating the SKU "A" product. -/
def sD1 : State := (create_product_ep initState prodC (some "content_admin")).1

/-- State after the duplicate-SKU checkout. -/
def sD2 : State := (create_order_ep sD1 payDup (some "buyer") (some "u1")).1

/-- State after transitioning the duplicate-SKU order to review, which
reserves both lines against the same committed stock. -/
def sD3 : State := (update_order_status sD2 1 .naProverke (some "fulfillment_admin")).1

/-- Product-creation request with stock 2, used for the short-stock scenario. -/
def prodS : ProductCreate := ⟨"Cap", "", [], [⟨"CAP", none, none, 100, 2⟩]⟩

/-- Checkout request for three caps (checkout itself does not check stock). -/
def payS : OrderCreate := ⟨[⟨"CAP", 3⟩]⟩

/-- State after creating the cap product. -/
def sS1 : State := (create_product_ep initState prodS (some "content_admin")).1

/-- State after the three-cap checkout. -/
def sS2 : State := (create_order_ep sS1 payS (some "buyer") (some "u1")).1

/-- The order of the short-stock scenario. -/
def oS : Order :=
  ⟨1, "u1", .novyi, [⟨"CAP", 3, 100, 300⟩], 300,
   [⟨none, .novyi, some "buyer"⟩], false⟩

theorem sub_chain_nil (r : Int) : sub_chain r [] = r := rfl

theorem sub_chain_cons (r q : Int) (qs : List Int) :
    sub_chain r (q :: qs) = sub_chain (max 0 (r - q)) qs := rfl

theorem sub_chain_restore (qs : List Int) (r : Int) (h0 : 0 ≤ r)
    (hq : ∀ q ∈ qs, 0 ≤ q) : sub_chain (r + qs.sum) qs = r := by
  induction qs with
  | nil => simpa using sub_chain_nil r
  | cons q qs ih =>
    have hsum : 0 ≤ qs.sum :=
      List.sum_nonneg (fun q hq' => hq q (List.mem_cons_of_mem _ hq'))
    rw [sub_chain_cons, List.sum_cons]
    have h1 : max 0 (r + (q + qs.sum) - q) = r + qs.sum := by
      rw [max_eq_right] <;> omega
    rw [h1]
    exact ih (fun q hq' => hq q (List.mem_cons_of_mem _ hq'))

theorem sub_chain_bounds (qs : List Int) (r : Int) (h0 : 0 ≤ r)
    (hq : ∀ q ∈ qs, 0 ≤ q) : 0 ≤ sub_chain r qs ∧ sub_chain r qs ≤ r := by
  induction qs generalizing r with
  | nil => exact ⟨h0, le_refl r⟩
  | cons q qs ih =>
    rw [sub_chain_cons]
    have hq0 : 0 ≤ q := hq q (List.mem_cons_self _ _)
    have h1 : 0 ≤ max 0 (r - q) := le_max_left 0 _
    obtain ⟨hl, hr⟩ := ih (max 0 (r - q)) h1 (fun x hx => hq x (List.mem_cons_of_mem _ hx))
    refine ⟨hl, hr.trans ?_⟩
    exact max_le h0 (by omega)

theorem qtys_cons (it : OrderItem) (rest : List OrderItem) (k : String) :
    qtys (it :: rest) k =
      if it.sku = k then it.qty :: qtys rest k else qtys rest k := by
  simp only [qtys, List.filter_cons]
  by_cases h : it.sku = k
  · simp [h]
  · simp [h]

theorem item_add_eq_sum (items : List OrderItem) (k : String) :
    item_add items k = (qtys items k).sum := rfl

theorem item_add_cons (it : OrderItem) (rest : List OrderItem) (k : String) :
    item_add (it :: rest) k =
      (if it.sku = k then it.qty else 0) + item_add rest k := by
  rw [item_add_eq_sum, item_add_eq_sum, qtys_cons]
  by_cases h : it.sku = k
  · simp [h]
  · simp [h]

theorem item_add_nonneg (items : List OrderItem) (k : String)
    (h : ∀ it ∈ items, 0 ≤ it.qty) : 0 ≤ item_add items k := by
  rw [item_add_eq_sum]
  refine List.sum_nonneg ?_
  intro q hq
  simp only [qtys, List.mem_map, List.mem_filter] at hq
  obtain ⟨it, ⟨hit, _⟩, rfl⟩ := hq
  exact h it hit

theorem reserve_items_apply (items : List OrderItem) (m : VariantMap) (k : String) :
    reserve_items m items k =
      (m k).map (fun v => { v with reserved := v.reserved + item_add items k }) := by
  induction items generalizing m with
  | nil =>
    cases hmk : m k with
    | none => simp [reserve_items, hmk]
    | some v => simp [reserve_items, hmk, item_add, qtys]
  | cons it rest ih =>
    have hstep : reserve_items m (it :: rest) =
        reserve_items (updVariant m it.sku
          (fun v => { v with reserved := v.reserved + it.qty })) rest := rfl
    rw [hstep, ih, item_add_cons]
    by_cases hk : k = it.sku
    · subst hk
      simp only [updVariant, if_pos rfl, Option.map_map]
      cases hmk : m it.sku with
      | none => simp [hmk]
      | some v =>
        simp [hmk, Function.comp]
        omega
    · have hk' : ¬ it.sku = k := fun h => hk h.symm
      simp [updVariant, hk, hk']

theorem unreserve_items_apply (items : List OrderItem) (m : VariantMap) (k : String) :
    unreserve_items m items k =
      (m k).map (fun v => { v with reserved := sub_chain v.reserved (qtys items k) }) := by
  induction items generalizing m with
  | nil =>
    cases hmk : m k with
    | none => simp [unreserve_items, hmk]
    | some v => simp [unreserve_items, hmk, qtys, sub_chain]
  | cons it rest ih =>
    have hstep : unreserve_items m (it :: rest) =
        unreserve_items (updVariant m it.sku
          (fun v => { v with reserved := max 0 (v.reserved - it.qty) })) rest := rfl
    rw [hstep, ih, qtys_cons]
    by_cases hk : k = it.sku
    · subst hk
      simp only [updVariant, if_pos rfl, Option.map_map]
      cases hmk : m it.sku with
      | none => simp [hmk]
      | some v => simp [hmk, Function.comp, sub_chain_cons]
    · have hk' : ¬ it.sku = k := fun h => hk h.symm
      simp [updVariant, hk, hk']

theorem deduct_items_apply (items : List OrderItem) (m : VariantMap) (k : String) :
    deduct_items m items k =
      (m k).map (fun v => { v with stock_total := v.stock_total - item_add items k,
                                   reserved := sub_chain v.reserved (qtys items k) }) := by
  induction items generalizing m with
  | nil =>
    cases hmk : m k with
    | none => simp [deduct_items, hmk]
    | some v => simp [deduct_items, hmk, item_add, qtys, sub_chain]
  | cons it rest ih =>
    have hstep : deduct_items m (it :: rest) =
        deduct_items (updVariant m it.sku
          (fun v => { v with stock_total := v.stock_total - it.qty,
                             reserved := max 0 (v.reserved - it.qty) })) rest := rfl
    rw [hstep, ih, qtys_cons, item_add_cons]
    by_cases hk : k = it.sku
    · subst hk
      simp only [updVariant, if_pos rfl, Option.map_map]
      cases hmk : m it.sku with
      | none => simp [hmk]
      | some v =>
        simp [hmk, Function.comp, sub_chain_cons]
        omega
    · have hk' : ¬ it.sku = k := fun h => hk h.symm
      simp [updVariant, hk, hk']

/- ---- check passes ---- -/

theorem check_items_ok (m : VariantMap) (items : List OrderItem) (u : Unit)
    (h : check_items m items = .ok u) :
    ∀ it ∈ items, ∃ v, m it.sku = some v ∧ it.qty ≤ v.stock_total - v.reserved := by
  induction items with
  | nil => intro it hit; cases hit
  | cons it rest ih =>
    unfold check_items at h
    revert h
    cases hv : m it.sku with
    | none => intro h; exact Except.noConfusion h
    | some v =>
      intro h
      dsimp only at h
      by_cases hs : v.stock_total - v.reserved < it.qty
      · rw [if_pos hs] at h; exact Except.noConfusion h
      · rw [if_neg hs] at h
        intro it' hit'
        rcases List.mem_cons.mp hit' with hit' | hit'
        · subst hit'
          exact ⟨v, hv, by omega⟩
        · exact ih h it' hit'

theorem check_items_insufficient (m : VariantMap) (items : List OrderItem)
    (hpres : ∀ it ∈ items, (m it.sku).isSome)
    (hshort : ∃ it ∈ items, ∀ v, m it.sku = some v → v.stock_total - v.reserved < it.qty) :
    check_items m items = .error .insufficientStock := by
  induction items with
  | nil => obtain ⟨it, hit, _⟩ := hshort; cases hit
  | cons it rest ih =>
    have hp := hpres it (List.mem_cons_self it rest)
    cases hv : m it.sku with
    | none => rw [hv] at hp; exact Bool.noConfusion hp
    | some v =>
      unfold check_items
      rw [hv]
      dsimp only
      by_cases hs : v.stock_total - v.reserved < it.qty
      · rw [if_pos hs]
      · rw [if_neg hs]
        refine ih (fun i hi => hpres i (List.mem_cons_of_mem _ hi)) ?_
        obtain ⟨i, hi, hshort'⟩ := hshort
        rcases List.mem_cons.mp hi with hi | hi
        · subst hi; exact absurd (hshort' v hv) hs
        · exact ⟨i, hi, hshort'⟩

theorem check_skus_ok (m : VariantMap) (items : List OrderItemIn) (u : Unit)
    (h : check_skus m items = .ok u) : ∀ it ∈ items, (m it.sku).isSome := by
  induction items with
  | nil => intro it hit; cases hit
  | cons it rest ih =>
    intro it' hit'
    unfold check_skus at h
    split at h
    · rcases List.mem_cons.mp hit' with hit' | hit'
      · subst hit'; assumption
      · exact ih h it' hit'
    · exact Except.noConfusion h

/- ---- orders-table lemmas ---- -/

theorem find_order_mem (l : List Order) (oid : Nat) (o : Order)
    (h : find_order l oid = some o) : o ∈ l ∧ o.id = oid := by
  unfold find_order at h
  refine ⟨List.mem_of_find?_eq_some h, ?_⟩
  have h2 := List.find?_some h
  simpa using h2

theorem find_order_of_mem_nodup (l : List Order) (o : Order)
    (hnd : (l.map (·.id)).Nodup) (ho : o ∈ l) : find_order l o.id = some o := by
  induction l with
  | nil => cases ho
  | cons a rest ih =>
    rw [List.map_cons, List.nodup_cons] at hnd
    unfold find_order
    by_cases ha : a.id = o.id
    · rcases List.mem_cons.mp ho with ho | ho
      · subst ho; simp [List.find?]
      · exfalso
        exact hnd.1 (ha ▸ (List.mem_map.mpr ⟨o, ho, rfl⟩))
    · have hb : (a.id == o.id) = false := by simp [ha]
      simp only [List.find?, hb]
      rcases List.mem_cons.mp ho with ho | ho
      · exact absurd rfl (ho ▸ ha)
      · exact ih hnd.2 ho

theorem find_order_append_fresh (l : List Order) (o : Order)
    (h : ∀ o' ∈ l, o'.id ≠ o.id) : find_order (l ++ [o]) o.id = some o := by
  induction l with
  | nil => simp [find_order, List.find?]
  | cons a rest ih =>
    have ha : (a.id == o.id) = false := by
      simp [h a (List.mem_cons_self a rest)]
    unfold find_order at *
    simp only [List.cons_append, List.find?, ha]
    exact ih (fun o' ho' => h o' (List.mem_cons_of_mem _ ho'))

theorem set_order_of_not_mem (l : List Order) (oid : Nat) (o2 : Order)
    (h : ∀ o' ∈ l, o'.id ≠ oid) : set_order l oid o2 = l := by
  induction l with
  | nil => rfl
  | cons a rest ih =>
    unfold set_order at *
    simp only [List.map_cons]
    rw [if_neg (h a (List.mem_cons_self a rest))]
    rw [ih (fun o' ho' => h o' (List.mem_cons_of_mem _ ho'))]

theorem set_order_map_id (l : List Order) (oid : Nat) (o2 : Order)
    (h2 : o2.id = oid) : (set_order l oid o2).map (·.id) = l.map (·.id) := by
  induction l with
  | nil => rfl
  | cons a rest ih =>
    unfold set_order at *
    simp only [List.map_cons]
    by_cases ha : a.id = oid
    · rw [if_pos ha, ih]
      simp [h2, ha]
    · rw [if_neg ha, ih]

theorem mem_set_order (l : List Order) (oid : Nat) (o2 a : Order)
    (h : a ∈ set_order l oid o2) : a = o2 ∨ (a ∈ l ∧ a.id ≠ oid) := by
  unfold set_order at h
  obtain ⟨b, hb, hba⟩ := List.mem_map.mp h
  by_cases hid : b.id = oid
  · rw [if_pos hid] at hba; exact Or.inl hba.symm
  · rw [if_neg hid] at hba; exact Or.inr ⟨hba ▸ hb, hba ▸ hid⟩

theorem set_order_mem_self (l : List Order) (oid : Nat) (o o2 : Order)
    (ho : o ∈ l) (hid : o.id = oid) : o2 ∈ set_order l oid o2 := by
  unfold set_order
  exact List.mem_map.mpr ⟨o, ho, by rw [if_pos hid]⟩

theorem find_order_set_order_self (l : List Order) (oid : Nat) (o o2 : Order)
    (h : find_order l oid = some o) (h2 : o2.id = oid) :
    find_order (set_order l oid o2) oid = some o2 := by
  induction l with
  | nil => exact Option.noConfusion h
  | cons a rest ih =>
    unfold find_order set_order at *
    simp only [List.map_cons]
    by_cases ha : a.id = oid
    · rw [if_pos ha]
      have : (o2.id == oid) = true := by simp [h2]
      simp [List.find?, this]
    · rw [if_neg ha]
      have hb : (a.id == oid) = false := by simp [ha]
      simp only [List.find?, hb] at h ⊢
      exact ih h

theorem find_order_set_order_other (l : List Order) (oid oid' : Nat) (o2 : Order)
    (hne : oid' ≠ oid) (h2 : o2.id = oid) :
    find_order (set_order l oid o2) oid' = find_order l oid' := by
  induction l with
  | nil => rfl
  | cons a rest ih =>
    unfold find_order set_order at *
    simp only [List.map_cons]
    by_cases ha : a.id = oid
    · rw [if_pos ha]
      have hb : (o2.id == oid') = false := by simp [h2]; exact fun h => absurd h.symm hne
      have hc : (a.id == oid') = false := by simp [ha]; exact fun h => absurd h.symm hne
      simp only [List.find?, hb, hc]
      exact ih
    · rw [if_neg ha]
      cases hc : (a.id == oid') with
      | true => simp only [List.find?, hc]
      | false =>
        simp only [List.find?, hc]
        exact ih

/- ---- sums and counters over tables ---- -/

theorem res_sum_append (l1 l2 : List Order) (k : String) :
    res_sum (l1 ++ l2) k = res_sum l1 k + res_sum l2 k := by
  simp [res_sum]

theorem res_sum_cons (o : Order) (l : List Order) (k : String) :
    res_sum (o :: l) k = contrib o k + res_sum l k := by
  simp [res_sum]

theorem res_sum_set_order (l : List Order) (oid : Nat) (o o2 : Order) (k : String)
    (hnd : (l.map (·.id)).Nodup) (hfind : find_order l oid = some o) (h2 : o2.id = oid) :
    res_sum (set_order l oid o2) k = res_sum l k - contrib o k + contrib o2 k := by
  induction l with
  | nil => exact Option.noConfusion hfind
  | cons a rest ih =>
    rw [List.map_cons, List.nodup_cons] at hnd
    unfold find_order at hfind
    by_cases ha : a.id = oid
    · have hb : (a.id == oid) = true := by simp [ha]
      simp only [List.find?, hb] at hfind
      have hoa : o = a := by injection hfind with h'; exact h'.symm
      subst hoa
      unfold set_order
      simp only [List.map_cons, if_pos ha]
      have hrest : (set_order rest oid o2) = rest := by
        refine set_order_of_not_mem rest oid o2 ?_
        intro o' ho' hco
        exact hnd.1 (List.mem_map.mpr ⟨o', ho', by rw [hco, ha]⟩)
      unfold set_order at hrest
      rw [hrest, res_sum_cons, res_sum_cons]
      ring
    · have hb : (a.id == oid) = false := by simp [ha]
      simp only [List.find?, hb] at hfind
      unfold set_order
      simp only [List.map_cons, if_neg ha]
      have := ih hnd.2 hfind
      unfold set_order at this
      rw [res_sum_cons, res_sum_cons, this]
      ring

theorem cancel_count_append (l1 l2 : List LedgerEntry) (oid : Nat) :
    cancel_count (l1 ++ l2) oid = cancel_count l1 oid + cancel_count l2 oid := by
  simp [cancel_count, List.countP_append]

theorem cancel_count_refund_entry (u : String) (d : Int) (oid oid' : Nat) :
    cancel_count [⟨u, d, "ORDER_CANCELLED", some oid⟩] oid' =
      if oid = oid' then 1 else 0 := by
  by_cases h : oid = oid'
  · subst h
    simp [cancel_count, List.countP, List.countP.go, beq_self_eq_true]
  · have hb : (oid == oid') = false := beq_eq_false_iff_ne.mpr h
    simp [cancel_count, List.countP, List.countP.go, hb, h]

theorem cancel_count_other_reason (u : String) (d : Int) (r : String) (i : Option Nat)
    (oid : Nat) (hr : r ≠ "ORDER_CANCELLED") :
    cancel_count [⟨u, d, r, i⟩] oid = 0 := by
  have hb : (r == "ORDER_CANCELLED") = false := beq_eq_false_iff_ne.mpr hr
  simp [cancel_count, List.countP, List.countP.go, hb]

theorem ledger_sum_append (l1 l2 : List LedgerEntry) (u : String) :
    ledger_sum (l1 ++ l2) u = ledger_sum l1 u + ledger_sum l2 u := by
  simp [ledger_sum]

theorem ledger_sum_singleton (e : LedgerEntry) (u : String) :
    ledger_sum [e] u = if e.user_id = u then e.delta else 0 := by
  by_cases h : e.user_id = u
  · have hb : (e.user_id == u) = true := beq_iff_eq.mpr h
    simp [ledger_sum, List.filter, hb, h]
  · have hb : (e.user_id == u) = false := beq_eq_false_iff_ne.mpr h
    simp [ledger_sum, List.filter, hb, h]

/- ---- error paths leave the state unchanged (up to the product id seq) ---- -/

theorem create_product_error_state (s : State) (p : ProductCreate) (r : Option String)
    (s' : State) (e : ApiError) (h : create_product s p r = (s', .error e)) :
    s' = s ∨ s' = { s with product_id_seq := s.product_id_seq + 1 } := by
  unfold create_product at h
  dsimp only at h
  repeat' split at h
  all_goals
    first
      | (left; exact (congrArg Prod.fst h).symm)
      | (right; exact (congrArg Prod.fst h).symm)
      | (exact Except.noConfusion (congrArg Prod.snd h))

theorem create_product_ep_error_state (s : State) (p : ProductCreate) (r : Option String)
    (s' : State) (e : ApiError) (h : create_product_ep s p r = (s', .error e)) :
    s' = s ∨ s' = { s with product_id_seq := s.product_id_seq + 1 } := by
  unfold create_product_ep at h
  split at h
  · exact create_product_error_state s p r s' e h
  · left; exact (congrArg Prod.fst h).symm

theorem create_order_error_state (s : State) (p : OrderCreate) (r u : Option String)
    (s' : State) (e : ApiError) (h : create_order s p r u = (s', .error e)) :
    s' = s := by
  unfold create_order at h
  dsimp only at h
  repeat' split at h
  all_goals
    first
      | exact (congrArg Prod.fst h).symm
      | exact Except.noConfusion (congrArg Prod.snd h)

theorem create_order_ep_error_state (s : State) (p : OrderCreate) (r u : Option String)
    (s' : State) (e : ApiError) (h : create_order_ep s p r u = (s', .error e)) :
    s' = s := by
  unfold create_order_ep at h
  split at h
  · exact create_order_error_state s p r u s' e h
  · exact (congrArg Prod.fst h).symm

theorem update_order_status_error_state (s : State) (oid : Nat) (t : OrderStatus)
    (r : Option String) (s' : State) (e : ApiError)
    (h : update_order_status s oid t r = (s', .error e)) :
    s' = s := by
  unfold update_order_status finish_transition at h
  dsimp only at h
  repeat' split at h
  all_goals
    first
      | exact (congrArg Prod.fst h).symm
      | exact Except.noConfusion (congrArg Prod.snd h)

theorem cancel_order_error_state (s : State) (oid : Nat) (r u : Option String)
    (s' : State) (e : ApiError) (h : cancel_order s oid r u = (s', .error e)) :
    s' = s := by
  unfold cancel_order cancel_commit finish_transition at h
  dsimp only at h
  repeat' split at h
  all_goals
    first
      | exact (congrArg Prod.fst h).symm
      | exact Except.noConfusion (congrArg Prod.snd h)

/- ---- success-path characterizations of the order helpers ---- -/

theorem reserve_for_order_ok (s : State) (o : Order) (s1 : State) (o1 : Order)
    (h : reserve_for_order s o = .ok (s1, o1)) :
    (o.reserved = true ∧ s1 = s ∧ o1 = o) ∨
    (o.reserved = false ∧ check_items s.variants_by_sku o.items = .ok () ∧
      s1 = { s with variants_by_sku := reserve_items s.variants_by_sku o.items } ∧
      o1 = { o with reserved := true }) := by
  unfold reserve_for_order at h
  cases ho : o.reserved with
  | true =>
    rw [ho, if_pos rfl] at h
    injection h with h'
    injection h' with h1 h2
    exact Or.inl ⟨rfl, h1.symm, h2.symm⟩
  | false =>
    rw [ho] at h
    simp only [Bool.false_eq_true, if_neg] at h
    revert h
    cases hc : check_items s.variants_by_sku o.items with
    | error e => intro h; exact Except.noConfusion h
    | ok u =>
      intro h
      injection h with h'
      injection h' with h1 h2
      cases u
      exact Or.inr ⟨rfl, rfl, h1.symm, h2.symm⟩

theorem reserve_for_order_err (s : State) (o : Order) (e : ApiError)
    (h : reserve_for_order s o = .error e) :
    o.reserved = false ∧ check_items s.variants_by_sku o.items = .error e := by
  unfold reserve_for_order at h
  cases ho : o.reserved with
  | true =>
    rw [ho, if_pos rfl] at h
    exact Except.noConfusion h
  | false =>
    rw [ho] at h
    simp only [Bool.false_eq_true, if_neg] at h
    revert h
    cases hc : check_items s.variants_by_sku o.items with
    | error e' =>
      intro h
      injection h with h'
      exact ⟨rfl, by rw [h']⟩
    | ok u => intro h; exact Except.noConfusion h

theorem deduct_stock_on_complete_ok (s : State) (o : Order) (s1 : State) (o1 : Order)
    (h : deduct_stock_on_complete s o = .ok (s1, o1)) :
    (o.reserved = true ∧
      s1 = { s with variants_by_sku := deduct_items s.variants_by_sku o.items } ∧
      o1 = { o with reserved := false }) ∨
    (o.reserved = false ∧ check_items s.variants_by_sku o.items = .ok () ∧
      s1 = { s with variants_by_sku :=
               deduct_items (reserve_items s.variants_by_sku o.items) o.items } ∧
      o1 = { o with reserved := false }) := by
  unfold deduct_stock_on_complete at h
  cases ho : o.reserved with
  | true =>
    rw [ho, if_pos rfl] at h
    injection h with h'
    injection h' with h1 h2
    exact Or.inl ⟨rfl, h1.symm, h2.symm⟩
  | false =>
    rw [ho] at h
    simp only [Bool.false_eq_true, if_neg] at h
    revert h
    cases hr : reserve_for_order s o with
    | error e => intro h; exact Except.noConfusion h
    | ok p =>
      intro h
      obtain ⟨s2, o2⟩ := p
      rcases reserve_for_order_ok s o s2 o2 hr with ⟨hres, _, _⟩ | ⟨_, hchk, hs2, ho2⟩
      · rw [ho] at hres; exact Bool.noConfusion hres
      · subst hs2; subst ho2
        injection h with h'
        injection h' with h1 h2
        exact Or.inr ⟨rfl, hchk, h1.symm, h2.symm⟩

/- ---- the base invariant (order ids, refund bookkeeping, ledger sums) ---- -/


theorem invB_init : InvB initState := by
  refine ⟨?_, ?_, ?_, ?_, ?_⟩
  · intro o ho; cases ho
  · simp [initState]
  · intro e he; cases he
  · intro o ho; cases ho
  · intro u; simp [ledger_sum, initState]

theorem cancel_count_fresh (s : State) (h : InvB s) (oid : Nat)
    (hf : ∀ o ∈ s.orders, o.id ≠ oid) : cancel_count s.ledger oid = 0 := by
  by_contra h0
  have hpos : 0 < s.ledger.countP
      (fun e => e.reason == "ORDER_CANCELLED" && e.order_id == some oid) :=
    Nat.pos_of_ne_zero h0
  obtain ⟨e, he, hp⟩ := List.countP_pos_iff.mp hpos
  have hp' : e.reason = "ORDER_CANCELLED" ∧ e.order_id = some oid := by
    constructor
    · have := (Bool.and_eq_true _ _).mp hp
      exact beq_iff_eq.mp this.1
    · have := (Bool.and_eq_true _ _).mp hp
      exact beq_iff_eq.mp this.2
  obtain ⟨o, ho, hoid, _, _⟩ := h.2.2.1 e he hp'.1
  rw [hp'.2] at hoid
  injection hoid with hoid
  exact hf o ho hoid.symm

theorem set_order_mem_other (l : List Order) (oid : Nat) (o2 o : Order)
    (ho : o ∈ l) (hne : o.id ≠ oid) : o ∈ set_order l oid o2 := by
  unfold set_order
  exact List.mem_map.mpr ⟨o, ho, by rw [if_neg hne]⟩

theorem cancel_allowed_ne_otmenen (st : OrderStatus) (h : st ∈ CANCEL_ALLOWED) :
    st ≠ .otmenen := by
  rcases (by simpa [CANCEL_ALLOWED] using h : st = .novyi ∨ st = .naProverke) with h' | h' <;>
    simp [h']

theorem allowed_source_ne_otmenen (cur t : OrderStatus)
    (h : t ∈ ALLOWED_TRANSITIONS cur) : cur ≠ .otmenen := by
  intro hc
  rw [hc] at h
  simp [ALLOWED_TRANSITIONS] at h

/-- Preservation of the base invariant by a status commit that touches
neither the ledger nor the balances (targets other than `otmenen`). -/
theorem invB_set_order_core (s : State) (order o2 : Order) (oid : Nat) (h : InvB s)
    (hfind : find_order s.orders oid = some order)
    (hid : o2.id = order.id) (huser : o2.user_id = order.user_id)
    (htot : o2.total_points = order.total_points)
    (hstat2 : o2.status ≠ .otmenen) (hcur : order.status ≠ .otmenen)
    (vm : VariantMap) :
    InvB { s with variants_by_sku := vm, orders := set_order s.orders oid o2 } := by
  obtain ⟨h1, h2, h3, h4, h5⟩ := h
  obtain ⟨hmem, hordid⟩ := find_order_mem _ _ _ hfind
  refine ⟨?_, ?_, ?_, ?_, ?_⟩
  · intro o ho
    rcases mem_set_order _ _ _ _ ho with heq | ⟨ho', _⟩
    · subst heq
      rw [hid]
      exact h1 order hmem
    · exact h1 o ho'
  · show (List.map (·.id) (set_order s.orders oid o2)).Nodup
    rw [set_order_map_id _ _ _ (hid.trans hordid)]
    exact h2
  · intro e he hr
    obtain ⟨o, ho, hoid', hdelta, huser'⟩ := h3 e he hr
    by_cases hcase : o.id = oid
    · have hoo : o = order := by
        have f1 := find_order_of_mem_nodup _ _ h2 ho
        rw [hcase, hfind] at f1
        injection f1 with f2
        exact f2.symm
      subst hoo
      refine ⟨o2, set_order_mem_self _ _ o _ ho hcase, ?_, ?_, ?_⟩
      · rw [hoid', hid]
      · rw [hdelta, htot]
      · rw [huser', huser]
    · exact ⟨o, set_order_mem_other _ _ _ _ ho hcase, hoid', hdelta, huser'⟩
  · intro o ho
    rcases mem_set_order _ _ _ _ ho with heq | ⟨ho', _⟩
    · subst heq
      show cancel_count s.ledger o.id = if o.status = .otmenen then 1 else 0
      rw [hid, if_neg hstat2]
      have hc0 := h4 order hmem
      rw [if_neg hcur] at hc0
      exact hc0
    · exact h4 o ho'
  · exact h5

/-- Preservation of the base invariant by the cancellation commit: release,
full refund of `total_points` to the owner, one `ORDER_CANCELLED` ledger
entry, status set to `otmenen`. -/
theorem invB_cancel_commit_core (s : State) (order o2 : Order) (oid : Nat) (h : InvB s)
    (hfind : find_order s.orders oid = some order)
    (hst : order.status ∈ CANCEL_ALLOWED)
    (hid : o2.id = order.id) (huser : o2.user_id = order.user_id)
    (htot : o2.total_points = order.total_points) (hstat2 : o2.status = .otmenen)
    (vm : VariantMap) :
    InvB { s with
      variants_by_sku := vm,
      user_points := fun u =>
        if u = order.user_id then s.user_points order.user_id + order.total_points
        else s.user_points u,
      ledger := s.ledger ++
        [⟨order.user_id, order.total_points, "ORDER_CANCELLED", some order.id⟩],
      orders := set_order s.orders oid o2 } := by
  obtain ⟨h1, h2, h3, h4, h5⟩ := h
  obtain ⟨hmem, hordid⟩ := find_order_mem _ _ _ hfind
  have hcur : order.status ≠ .otmenen := cancel_allowed_ne_otmenen _ hst
  refine ⟨?_, ?_, ?_, ?_, ?_⟩
  · intro o ho
    rcases mem_set_order _ _ _ _ ho with heq | ⟨ho', _⟩
    · subst heq
      rw [hid]
      exact h1 order hmem
    · exact h1 o ho'
  · show (List.map (·.id) (set_order s.orders oid o2)).Nodup
    rw [set_order_map_id _ _ _ (hid.trans hordid)]
    exact h2
  · intro e he hr
    rcases List.mem_append.mp he with he | he
    · obtain ⟨o, ho, hoid', hdelta, huser'⟩ := h3 e he hr
      by_cases hcase : o.id = oid
      · have hoo : o = order := by
          have f1 := find_order_of_mem_nodup _ _ h2 ho
          rw [hcase, hfind] at f1
          injection f1 with f2
          exact f2.symm
        subst hoo
        refine ⟨o2, set_order_mem_self _ _ o _ ho hcase, ?_, ?_, ?_⟩
        · rw [hoid', hid]
        · rw [hdelta, htot]
        · rw [huser', huser]
      · exact ⟨o, set_order_mem_other _ _ _ _ ho hcase, hoid', hdelta, huser'⟩
    · have he' := List.mem_singleton.mp he
      subst he'
      refine ⟨o2, set_order_mem_self _ _ order _ hmem hordid, ?_, ?_, ?_⟩
      · show some order.id = some o2.id
        rw [hid]
      · exact htot.symm
      · exact huser.symm
  · intro o ho
    show cancel_count (s.ledger ++
        [⟨order.user_id, order.total_points, "ORDER_CANCELLED", some order.id⟩]) o.id =
      if o.status = .otmenen then 1 else 0
    rw [cancel_count_append, cancel_count_refund_entry]
    rcases mem_set_order _ _ _ _ ho with heq | ⟨ho', hne⟩
    · subst heq
      rw [if_pos hstat2, hid]
      have hc0 := h4 order hmem
      rw [if_neg hcur] at hc0
      rw [hc0, if_pos rfl]
    · have hne' : order.id ≠ o.id := fun hh => hne (hh ▸ hordid)
      rw [if_neg hne', Nat.add_zero]
      exact h4 o ho'
  · intro u
    show ledger_sum (s.ledger ++
        [⟨order.user_id, order.total_points, "ORDER_CANCELLED", some order.id⟩]) u =
      (if u = order.user_id then s.user_points order.user_id + order.total_points
       else s.user_points u) - initState.user_points u
    rw [ledger_sum_append, ledger_sum_singleton]
    by_cases hu : u = order.user_id
    · subst hu
      rw [if_pos rfl, if_pos rfl, h5 order.user_id]
      ring
    · rw [if_neg (fun hh => hu hh.symm), if_neg hu, h5 u]
      ring

/-- Preservation of the base invariant by a successful checkout commit. -/
theorem invB_checkout_commit (s : State) (uid : String) (items_out : List OrderItem)
    (r : Option String) (h : InvB s) :
    InvB { s with
      user_points := fun u =>
        if u = uid then s.user_points uid - order_total items_out else s.user_points u,
      ledger := s.ledger ++
        [⟨uid, -(order_total items_out), "ORDER_CREATED", some s.order_id_seq⟩],
      order_id_seq := s.order_id_seq + 1,
      orders := s.orders ++
        [⟨s.order_id_seq, uid, .novyi, items_out, order_total items_out,
          [⟨none, .novyi, r⟩], false⟩] } := by
  obtain ⟨h1, h2, h3, h4, h5⟩ := h
  have hfresh : ∀ o ∈ s.orders, o.id ≠ s.order_id_seq :=
    fun o ho => Nat.ne_of_lt (h1 o ho)
  refine ⟨?_, ?_, ?_, ?_, ?_⟩
  · intro o ho
    rcases List.mem_append.mp ho with ho | ho
    · exact Nat.lt_succ_of_lt (h1 o ho)
    · have ho' := List.mem_singleton.mp ho
      subst ho'
      exact Nat.lt_succ_self _
  · show (List.map (·.id) (s.orders ++ _)).Nodup
    rw [List.map_append]
    refine h2.append (List.nodup_singleton _) ?_
    intro a ha hb
    simp only [List.map_cons, List.map_nil, List.mem_singleton] at hb
    obtain ⟨o, ho, rfl⟩ := List.mem_map.mp ha
    exact hfresh o ho hb
  · intro e he hr
    rcases List.mem_append.mp he with he | he
    · obtain ⟨o, ho, h'⟩ := h3 e he hr
      exact ⟨o, List.mem_append_left _ ho, h'⟩
    · have he' := List.mem_singleton.mp he
      subst he'
      exact absurd hr (by decide : ¬ ("ORDER_CREATED" : String) = "ORDER_CANCELLED")
  · intro o ho
    show cancel_count (s.ledger ++
        [⟨uid, -(order_total items_out), "ORDER_CREATED", some s.order_id_seq⟩]) o.id =
      if o.status = .otmenen then 1 else 0
    rw [cancel_count_append,
        cancel_count_other_reason uid (-(order_total items_out)) "ORDER_CREATED"
          (some s.order_id_seq) o.id (by decide),
        Nat.add_zero]
    rcases List.mem_append.mp ho with ho | ho
    · exact h4 o ho
    · have ho' := List.mem_singleton.mp ho
      subst ho'
      show cancel_count s.ledger s.order_id_seq = if OrderStatus.novyi = .otmenen then 1 else 0
      rw [if_neg (by decide)]
      exact cancel_count_fresh s ⟨h1, h2, h3, h4, h5⟩ s.order_id_seq hfresh
  · intro u
    show ledger_sum (s.ledger ++
        [⟨uid, -(order_total items_out), "ORDER_CREATED", some s.order_id_seq⟩]) u =
      (if u = uid then s.user_points uid - order_total items_out else s.user_points u) -
        initState.user_points u
    rw [ledger_sum_append, ledger_sum_singleton]
    by_cases hu : u = uid
    · subst hu
      rw [if_pos rfl, if_pos rfl, h5 u]
      ring
    · rw [if_neg (fun hh => hu hh.symm), if_neg hu, h5 u]
      ring


theorem invB_create_product (s : State) (p : ProductCreate) (r : Option String)
    (h : InvB s) : InvB (create_product_ep s p r).1 := by
  unfold create_product_ep create_product
  dsimp only
  repeat' split
  all_goals exact ⟨h.1, h.2.1, h.2.2.1, h.2.2.2.1, h.2.2.2.2⟩

theorem invB_create_order (s : State) (p : OrderCreate) (r u : Option String)
    (h : InvB s) : InvB (create_order_ep s p r u).1 := by
  unfold create_order_ep create_order
  dsimp only
  repeat' split
  all_goals try exact ⟨h.1, h.2.1, h.2.2.1, h.2.2.2.1, h.2.2.2.2⟩
  exact invB_checkout_commit _ _ _ _ h

/-- Preservation of the base invariant by the shared cancellation tail
(release + refund + commit `otmenen`). -/
theorem invB_finish_cancel (s : State) (order : Order) (oid : Nat) (role : Option String)
    (h : InvB s) (hfind : find_order s.orders oid = some order)
    (hst : order.status ∈ CANCEL_ALLOWED) :
    InvB (finish_transition
      (refund_points (unreserve_for_order s order).1 (unreserve_for_order s order).2)
      (unreserve_for_order s order).2 oid order.status .otmenen role).1 := by
  cases ho : order.reserved with
  | true =>
    have hu : unreserve_for_order s order =
        ({ s with variants_by_sku := unreserve_items s.variants_by_sku order.items },
         { order with reserved := false }) := by
      unfold unreserve_for_order
      rw [ho]
      exact if_pos rfl
    rw [hu]
    unfold finish_transition refund_points
    dsimp only
    refine invB_cancel_commit_core s order _ oid h hfind hst ?_ ?_ ?_ ?_ _ <;> rfl
  | false =>
    have hu : unreserve_for_order s order = (s, order) := by
      unfold unreserve_for_order
      rw [ho]
      exact if_neg Bool.false_ne_true
    rw [hu]
    unfold finish_transition refund_points
    dsimp only
    refine invB_cancel_commit_core s order _ oid h hfind hst ?_ ?_ ?_ ?_ _ <;> rfl

theorem invB_update_order_status (s : State) (oid : Nat) (t : OrderStatus)
    (r : Option String) (h : InvB s) : InvB (update_order_status s oid t r).1 := by
  unfold update_order_status finish_transition
  dsimp only
  split
  · exact h
  split
  · exact h
  rename_i order heq
  split
  · rename_i hallow
    split
    · rename_i ht
      split
      · exact h
      rename_i s1 o1 heq2
      subst ht
      rcases reserve_for_order_ok s order s1 o1 heq2 with ⟨hres, rfl, rfl⟩ | ⟨hres, hchk, rfl, rfl⟩
      · refine invB_set_order_core _ _ _ oid h heq ?_ ?_ ?_ ?_
          (allowed_source_ne_otmenen _ _ hallow) _ <;>
          first | rfl | (intro hco; exact OrderStatus.noConfusion hco)
      · refine invB_set_order_core _ _ _ oid h heq ?_ ?_ ?_ ?_
          (allowed_source_ne_otmenen _ _ hallow) _ <;>
          first | rfl | (intro hco; exact OrderStatus.noConfusion hco)
    · split
      · rename_i hnp ht
        split
        · rename_i hcanc
          subst ht
          exact invB_finish_cancel _ _ oid r h heq hcanc
        · exact h
      · split
        · rename_i hnp hno ht
          split
          · exact h
          rename_i s1 o1 heq2
          subst ht
          rcases deduct_stock_on_complete_ok s order s1 o1 heq2 with
            ⟨hres, rfl, rfl⟩ | ⟨hres, hchk, rfl, rfl⟩
          · refine invB_set_order_core _ _ _ oid h heq ?_ ?_ ?_ ?_
              (allowed_source_ne_otmenen _ _ hallow) _ <;>
              first | rfl | (intro hco; exact OrderStatus.noConfusion hco)
          · refine invB_set_order_core _ _ _ oid h heq ?_ ?_ ?_ ?_
              (allowed_source_ne_otmenen _ _ hallow) _ <;>
              first | rfl | (intro hco; exact OrderStatus.noConfusion hco)
        · rename_i hnp hno hnz
          refine invB_set_order_core _ _ _ oid h heq ?_ ?_ ?_ ?_
            (allowed_source_ne_otmenen _ _ hallow) _ <;> first | rfl | exact hno
  · exact h

theorem invB_cancel_order (s : State) (oid : Nat) (r u : Option String) (h : InvB s) :
    InvB (cancel_order s oid r u).1 := by
  unfold cancel_order cancel_commit
  dsimp only
  split
  · exact h
  split
  · exact h
  rename_i order heq
  split
  · split
    · exact h
    rename_i uid
    split
    · exact h
    split
    · exact h
    split
    · rename_i hcanc
      exact invB_finish_cancel s order oid r h heq hcanc
    · exact h
  · split
    · rename_i hcanc
      exact invB_finish_cancel s order oid r h heq hcanc
    · exact h

theorem invB_step (s s' : State) (hstep : Step s s') (h : InvB s) : InvB s' := by
  cases hstep with
  | create_product p r => exact invB_create_product s p r h
  | create_order p r u => exact invB_create_order s p r u h
  | update_order_status oid t r => exact invB_update_order_status s oid t r h
  | cancel_order oid r u => exact invB_cancel_order s oid r u h

theorem invB_steps (s s' : State) (hsteps : Steps s s') (h : InvB s) : InvB s' := by
  induction hsteps with
  | refl => exact h
  | tail hab hbc ih => exact invB_step _ _ hbc ih

theorem invB_reachable (s : State) (h : Reachable s) : InvB s :=
  invB_steps _ _ h invB_init

/- ---- ledger is append-only ---- -/

theorem unreserve_fst_ledger (s : State) (o : Order) :
    (unreserve_for_order s o).1.ledger = s.ledger := by
  unfold unreserve_for_order
  split <;> rfl

theorem create_product_ep_ledger (s : State) (p : ProductCreate) (r : Option String) :
    (create_product_ep s p r).1.ledger = s.ledger := by
  unfold create_product_ep create_product
  dsimp only
  repeat' split
  all_goals rfl

theorem create_order_ep_ledger (s : State) (p : OrderCreate) (r u : Option String) :
    (create_order_ep s p r u).1.ledger = s.ledger ∨
    ∃ e, (create_order_ep s p r u).1.ledger = s.ledger ++ [e] := by
  unfold create_order_ep create_order
  dsimp only
  repeat' split
  all_goals first | (left; rfl) | (right; exact ⟨_, rfl⟩)

theorem update_order_status_ledger (s : State) (oid : Nat) (t : OrderStatus)
    (r : Option String) :
    (update_order_status s oid t r).1.ledger = s.ledger ∨
    ∃ e, (update_order_status s oid t r).1.ledger = s.ledger ++ [e] := by
  unfold update_order_status finish_transition
  dsimp only
  split
  · left; rfl
  split
  · left; rfl
  rename_i order heq
  split
  · split
    · split
      · left; rfl
      rename_i s1 o1 heq2
      rcases reserve_for_order_ok s order s1 o1 heq2 with ⟨_, rfl, rfl⟩ | ⟨_, _, rfl, rfl⟩
      · left; rfl
      · left; rfl
    · split
      · split
        · right
          refine ⟨⟨(unreserve_for_order s order).2.user_id,
            (unreserve_for_order s order).2.total_points, "ORDER_CANCELLED",
            some (unreserve_for_order s order).2.id⟩, ?_⟩
          show (refund_points (unreserve_for_order s order).1
            (unreserve_for_order s order).2).ledger = _
          unfold refund_points
          dsimp only
          rw [unreserve_fst_ledger]
        · left; rfl
      · split
        · split
          · left; rfl
          rename_i s1 o1 heq2
          rcases deduct_stock_on_complete_ok s order s1 o1 heq2 with
            ⟨_, rfl, rfl⟩ | ⟨_, _, rfl, rfl⟩
          · left; rfl
          · left; rfl
        · left; rfl
  · left; rfl

theorem cancel_order_ledger (s : State) (oid : Nat) (r u : Option String) :
    (cancel_order s oid r u).1.ledger = s.ledger ∨
    ∃ e, (cancel_order s oid r u).1.ledger = s.ledger ++ [e] := by
  unfold cancel_order cancel_commit finish_transition
  dsimp only
  split
  · left; rfl
  split
  · left; rfl
  rename_i order heq
  have hc : ∀ role : Option String,
      (refund_points (unreserve_for_order s order).1
        (unreserve_for_order s order).2).ledger = s.ledger ++
        [⟨(unreserve_for_order s order).2.user_id,
          (unreserve_for_order s order).2.total_points, "ORDER_CANCELLED",
          some (unreserve_for_order s order).2.id⟩] := by
    intro _
    unfold refund_points
    dsimp only
    rw [unreserve_fst_ledger]
  split
  · split
    · left; rfl
    rename_i uid
    split
    · left; rfl
    split
    · left; rfl
    split
    · right; exact ⟨_, hc r⟩
    · left; rfl
  · split
    · right; exact ⟨_, hc r⟩
    · left; rfl

theorem step_ledger_extend (s s' : State) (hstep : Step s s') :
    ∃ tail, s'.ledger = s.ledger ++ tail := by
  cases hstep with
  | create_product p r =>
    exact ⟨[], by rw [create_product_ep_ledger, List.append_nil]⟩
  | create_order p r u =>
    rcases create_order_ep_ledger s p r u with h | ⟨e, h⟩
    · exact ⟨[], by rw [h, List.append_nil]⟩
    · exact ⟨[e], h⟩
  | update_order_status oid t r =>
    rcases update_order_status_ledger s oid t r with h | ⟨e, h⟩
    · exact ⟨[], by rw [h, List.append_nil]⟩
    · exact ⟨[e], h⟩
  | cancel_order oid r u =>
    rcases cancel_order_ledger s oid r u with h | ⟨e, h⟩
    · exact ⟨[], by rw [h, List.append_nil]⟩
    · exact ⟨[e], h⟩

theorem steps_ledger_extend (s s' : State) (h : Steps s s') :
    ∃ tail, s'.ledger = s.ledger ++ tail := by
  induction h with
  | refl => exact ⟨[], (List.append_nil _).symm⟩
  | tail hab hbc ih =>
    obtain ⟨t1, h1⟩ := ih
    obtain ⟨t2, h2⟩ := step_ledger_extend _ _ hbc
    exact ⟨t1 ++ t2, by rw [h2, h1, List.append_assoc]⟩

/-- Along any continuation of the execution, a cancelled order keeps exactly
one `ORDER_CANCELLED` ledger entry: no second refund can ever occur. -/
theorem cancelled_refund_stays_one (s s' : State) (hreach : Reachable s)
    (hsteps : Steps s s') (o : Order) (ho : o ∈ s.orders) (hst : o.status = .otmenen) :
    cancel_count s'.ledger o.id = 1 := by
  have hinv := invB_reachable s hreach
  have hinv' : InvB s' := invB_steps _ _ hsteps hinv
  have h1 : cancel_count s.ledger o.id = 1 := by
    have hh := hinv.2.2.2.1 o ho
    rw [if_pos hst] at hh
    exact hh
  obtain ⟨tail, htail⟩ := steps_ledger_extend _ _ hsteps
  have hge : 1 ≤ cancel_count s'.ledger o.id := by
    rw [htail, cancel_count_append, h1]
    omega
  by_cases hex : ∃ o' ∈ s'.orders, o'.id = o.id
  · obtain ⟨o', ho', hid⟩ := hex
    have hh := hinv'.2.2.2.1 o' ho'
    rw [hid] at hh
    by_cases hst' : o'.status = .otmenen
    · rw [if_pos hst'] at hh
      exact hh
    · rw [if_neg hst'] at hh
      omega
  · have h0 := cancel_count_fresh s' hinv' o.id
      (fun o' ho' hh => hex ⟨o', ho', hh⟩)
    omega

/- ---- error kinds of the stock helpers ---- -/

theorem check_items_error_kinds (m : VariantMap) (items : List OrderItem) (e : ApiError)
    (h : check_items m items = .error e) :
    e = .insufficientStock ∨ e = .keyError := by
  induction items with
  | nil => exact Except.noConfusion h
  | cons it rest ih =>
    unfold check_items at h
    revert h
    cases hv : m it.sku with
    | none =>
      intro h
      injection h with h'
      exact Or.inr h'.symm
    | some v =>
      intro h
      dsimp only at h
      by_cases hs : v.stock_total - v.reserved < it.qty
      · rw [if_pos hs] at h
        injection h with h'
        exact Or.inl h'.symm
      · rw [if_neg hs] at h
        exact ih h

theorem deduct_stock_error_kinds (s : State) (o : Order) (e : ApiError)
    (h : deduct_stock_on_complete s o = .error e) :
    e = .insufficientStock ∨ e = .keyError := by
  unfold deduct_stock_on_complete at h
  cases ho : o.reserved with
  | true =>
    rw [ho, if_pos rfl] at h
    exact Except.noConfusion h
  | false =>
    rw [ho] at h
    simp only [Bool.false_eq_true, if_neg] at h
    revert h
    cases hr : reserve_for_order s o with
    | error e' =>
      intro h
      injection h with h'
      obtain ⟨_, hc⟩ := reserve_for_order_err s o e' hr
      rw [← h']
      exact check_items_error_kinds _ _ _ hc
    | ok p =>
      intro h
      obtain ⟨s2, o2⟩ := p
      exact Except.noConfusion h

theorem check_items_ok_of_avail (m : VariantMap) (items : List OrderItem)
    (hpres : ∀ it ∈ items, (m it.sku).isSome)
    (hav : ∀ it ∈ items, ∀ v, m it.sku = some v → it.qty ≤ v.stock_total - v.reserved) :
    check_items m items = .ok () := by
  induction items with
  | nil => rfl
  | cons it rest ih =>
    obtain ⟨v, hv⟩ := Option.isSome_iff_exists.mp (hpres it (List.mem_cons_self _ _))
    unfold check_items
    rw [hv]
    dsimp only
    rw [if_neg (not_lt.mpr (hav it (List.mem_cons_self _ _) v hv))]
    exact ih (fun i hi => hpres i (List.mem_cons_of_mem _ hi))
      (fun i hi => hav i (List.mem_cons_of_mem _ hi))

/- ---- success shapes of the cancellation and checkout paths ---- -/

theorem cancel_commit_shape (s : State) (order : Order) (oid : Nat) (role : Option String)
    (s2 : State) (o2 : Order)
    (h : finish_transition
        (refund_points (unreserve_for_order s order).1 (unreserve_for_order s order).2)
        (unreserve_for_order s order).2 oid order.status .otmenen role = (s2, .ok o2)) :
    s2.variants_by_sku =
      (if order.reserved = true then unreserve_items s.variants_by_sku order.items
       else s.variants_by_sku) ∧
    (∀ x, s2.user_points x =
      if x = order.user_id then s.user_points order.user_id + order.total_points
      else s.user_points x) := by
  cases ho : order.reserved with
  | true =>
    have hu : unreserve_for_order s order =
        ({ s with variants_by_sku := unreserve_items s.variants_by_sku order.items },
         { order with reserved := false }) := by
      unfold unreserve_for_order
      rw [ho]
      exact if_pos rfl
    rw [hu] at h
    unfold finish_transition refund_points at h
    dsimp only at h
    rw [Prod.mk.injEq] at h
    obtain ⟨hs2, ho2⟩ := h
    constructor
    · rw [← hs2, if_pos rfl]
    · intro x
      rw [← hs2]
  | false =>
    have hu : unreserve_for_order s order = (s, order) := by
      unfold unreserve_for_order
      rw [ho]
      exact if_neg Bool.false_ne_true
    rw [hu] at h
    unfold finish_transition refund_points at h
    dsimp only at h
    rw [Prod.mk.injEq] at h
    obtain ⟨hs2, ho2⟩ := h
    constructor
    · rw [← hs2, if_neg Bool.false_ne_true]
    · intro x
      rw [← hs2]

theorem cancel_order_ok (s : State) (oid : Nat) (rc uc : Option String) (s2 : State)
    (o2 : Order) (h : cancel_order s oid rc uc = (s2, .ok o2)) :
    ∃ order, find_order s.orders oid = some order ∧ order.status ∈ CANCEL_ALLOWED ∧
      s2.variants_by_sku =
        (if order.reserved = true then unreserve_items s.variants_by_sku order.items
         else s.variants_by_sku) ∧
      (∀ x, s2.user_points x =
        if x = order.user_id then s.user_points order.user_id + order.total_points
        else s.user_points x) := by
  unfold cancel_order cancel_commit at h
  dsimp only at h
  split at h
  · exact Except.noConfusion (congrArg Prod.snd h)
  split at h
  · exact Except.noConfusion (congrArg Prod.snd h)
  rename_i order heq
  split at h
  · split at h
    · exact Except.noConfusion (congrArg Prod.snd h)
    rename_i uid
    split at h
    · exact Except.noConfusion (congrArg Prod.snd h)
    split at h
    · exact Except.noConfusion (congrArg Prod.snd h)
    split at h
    · rename_i hcanc
      obtain ⟨hv, hp⟩ := cancel_commit_shape s order oid rc s2 o2 h
      exact ⟨order, heq, hcanc, hv, hp⟩
    · exact Except.noConfusion (congrArg Prod.snd h)
  · split at h
    · rename_i hcanc
      obtain ⟨hv, hp⟩ := cancel_commit_shape s order oid rc s2 o2 h
      exact ⟨order, heq, hcanc, hv, hp⟩
    · exact Except.noConfusion (congrArg Prod.snd h)

theorem update_order_status_ok_otmenen (s : State) (oid : Nat) (r : Option String)
    (s2 : State) (o2 : Order)
    (h : update_order_status s oid .otmenen r = (s2, .ok o2)) :
    ∃ order, find_order s.orders oid = some order ∧ order.status ∈ CANCEL_ALLOWED ∧
      s2.variants_by_sku =
        (if order.reserved = true then unreserve_items s.variants_by_sku order.items
         else s.variants_by_sku) ∧
      (∀ x, s2.user_points x =
        if x = order.user_id then s.user_points order.user_id + order.total_points
        else s.user_points x) := by
  unfold update_order_status at h
  dsimp only at h
  split at h
  · exact Except.noConfusion (congrArg Prod.snd h)
  split at h
  · exact Except.noConfusion (congrArg Prod.snd h)
  rename_i order heq
  split at h
  · rw [if_neg (by decide : ¬ (OrderStatus.otmenen = .naProverke)), if_pos rfl] at h
    split at h
    · rename_i hcanc
      obtain ⟨hv, hp⟩ := cancel_commit_shape s order oid r s2 o2 h
      exact ⟨order, heq, hcanc, hv, hp⟩
    · exact Except.noConfusion (congrArg Prod.snd h)
  · exact Except.noConfusion (congrArg Prod.snd h)

theorem allowed_review_source (st : OrderStatus)
    (h : OrderStatus.naProverke ∈ ALLOWED_TRANSITIONS st) : st = .novyi := by
  cases st <;> first | rfl | simp [ALLOWED_TRANSITIONS] at h

theorem update_order_status_ok_review (s : State) (oid : Nat) (r : Option String)
    (s2 : State) (o2 : Order)
    (h : update_order_status s oid .naProverke r = (s2, .ok o2)) :
    ∃ order, find_order s.orders oid = some order ∧
      order.status = .novyi ∧
      o2.id = order.id ∧ o2.user_id = order.user_id ∧
      o2.total_points = order.total_points ∧ o2.items = order.items ∧
      o2.status = .naProverke ∧ o2.reserved = true ∧
      s2.user_points = s.user_points ∧ s2.orders = set_order s.orders oid o2 ∧
      ((order.reserved = true ∧ s2.variants_by_sku = s.variants_by_sku) ∨
       (order.reserved = false ∧
         s2.variants_by_sku = reserve_items s.variants_by_sku order.items)) := by
  unfold update_order_status finish_transition at h
  dsimp only at h
  split at h
  · exact Except.noConfusion (congrArg Prod.snd h)
  split at h
  · exact Except.noConfusion (congrArg Prod.snd h)
  rename_i order heq
  split at h
  · rename_i hallow
    rw [if_pos rfl] at h
    split at h
    · exact Except.noConfusion (congrArg Prod.snd h)
    rename_i s1 o1 heq2
    rcases reserve_for_order_ok s order s1 o1 heq2 with ⟨hres, hs1, ho1⟩ | ⟨hres, hchk, hs1, ho1⟩
    · rw [hs1, ho1] at h
      rw [Prod.mk.injEq] at h
      obtain ⟨hs2, ho2⟩ := h
      injection ho2 with ho2'
      refine ⟨order, heq, allowed_review_source _ hallow, ?_, ?_, ?_, ?_, ?_, ?_, ?_, ?_, ?_⟩
      · rw [← ho2']
      · rw [← ho2']
      · rw [← ho2']
      · rw [← ho2']
      · rw [← ho2']
      · rw [← ho2']
        exact hres
      · rw [← hs2]
      · rw [← hs2, ← ho2']
      · exact Or.inl ⟨hres, by rw [← hs2]⟩
    · rw [hs1, ho1] at h
      rw [Prod.mk.injEq] at h
      obtain ⟨hs2, ho2⟩ := h
      injection ho2 with ho2'
      refine ⟨order, heq, allowed_review_source _ hallow, ?_, ?_, ?_, ?_, ?_, ?_, ?_, ?_, ?_⟩
      · rw [← ho2']
      · rw [← ho2']
      · rw [← ho2']
      · rw [← ho2']
      · rw [← ho2']
      · rw [← ho2']
      · rw [← hs2]
      · rw [← hs2, ← ho2']
      · exact Or.inr ⟨hres, by rw [← hs2]⟩
  · exact Except.noConfusion (congrArg Prod.snd h)

theorem create_order_ep_ok (s : State) (p : OrderCreate) (r u' : Option String)
    (s1 : State) (o : Order) (h : create_order_ep s p r u' = (s1, .ok o)) :
    validOrderCreate p = true ∧ r = some "buyer" ∧
    ∃ uid, u' = some uid ∧
      o = ⟨s.order_id_seq, uid, .novyi, price_items s.variants_by_sku p.items,
           order_total (price_items s.variants_by_sku p.items),
           [⟨none, .novyi, r⟩], false⟩ ∧
      s1 = { s with
        user_points := fun x =>
          if x = uid then
            s.user_points uid - order_total (price_items s.variants_by_sku p.items)
          else s.user_points x,
        ledger := s.ledger ++
          [⟨uid, -(order_total (price_items s.variants_by_sku p.items)),
            "ORDER_CREATED", some s.order_id_seq⟩],
        order_id_seq := s.order_id_seq + 1,
        orders := s.orders ++ [⟨s.order_id_seq, uid, .novyi,
          price_items s.variants_by_sku p.items,
          order_total (price_items s.variants_by_sku p.items),
          [⟨none, .novyi, r⟩], false⟩] } := by
  unfold create_order_ep create_order at h
  dsimp only at h
  split at h
  · rename_i hval
    split at h
    · exact Except.noConfusion (congrArg Prod.snd h)
    · rename_i hrole
      split at h
      · exact Except.noConfusion (congrArg Prod.snd h)
      · rename_i uid
        split at h
        · exact Except.noConfusion (congrArg Prod.snd h)
        · split at h
          · exact Except.noConfusion (congrArg Prod.snd h)
          · split at h
            · exact Except.noConfusion (congrArg Prod.snd h)
            · rw [Prod.mk.injEq] at h
              obtain ⟨hs1, ho2⟩ := h
              injection ho2 with ho2'
              exact ⟨hval, not_ne_iff.mp hrole, uid, rfl, ho2'.symm, hs1.symm⟩
  · exact Except.noConfusion (congrArg Prod.snd h)

/- ---- reserve/release round trip ---- -/

theorem qtys_nonneg_of (items : List OrderItem) (k : String)
    (hq : ∀ it ∈ items, 0 ≤ it.qty) : ∀ q ∈ qtys items k, 0 ≤ q := by
  intro q hqq
  simp only [qtys, List.mem_map, List.mem_filter] at hqq
  obtain ⟨it, ⟨hit, _⟩, rfl⟩ := hqq
  exact hq it hit

theorem reserve_unreserve_roundtrip (m : VariantMap) (items : List OrderItem)
    (hres0 : ∀ k v, m k = some v → 0 ≤ v.reserved) (hq : ∀ it ∈ items, 0 ≤ it.qty)
    (k : String) : unreserve_items (reserve_items m items) items k = m k := by
  rw [unreserve_items_apply, reserve_items_apply]
  cases hm : m k with
  | none => rfl
  | some v =>
    simp only [Option.map_some']
    have hsc : sub_chain (v.reserved + item_add items k) (qtys items k) = v.reserved := by
      rw [item_add_eq_sum]
      exact sub_chain_restore _ _ (hres0 k v hm) (qtys_nonneg_of items k hq)
    show some { v with reserved := sub_chain (v.reserved + item_add items k) (qtys items k) } =
      some v
    rw [hsc]

theorem valid_order_create_qty (p : OrderCreate) (h : validOrderCreate p = true) :
    ∀ it ∈ p.items, 1 ≤ it.qty ∧ it.qty ≤ 1000 := by
  unfold validOrderCreate at h
  rw [Bool.and_eq_true] at h
  intro it hit
  have h2 := List.all_eq_true.mp h.2 it hit
  unfold validOrderItemIn at h2
  rw [Bool.and_eq_true, Bool.and_eq_true] at h2
  exact ⟨of_decide_eq_true h2.1.2, of_decide_eq_true h2.2⟩

theorem price_items_mem (m : VariantMap) (items : List OrderItemIn) :
    ∀ it' ∈ price_items m items, ∃ it ∈ items, it'.qty = it.qty ∧ it'.sku = it.sku := by
  intro it' h
  unfold price_items at h
  obtain ⟨it, hit, rfl⟩ := List.mem_map.mp h
  refine ⟨it, hit, ?_, ?_⟩ <;> cases hm : m it.sku <;> simp [hm]

/-- C3: a successful checkout by user `uid` followed by a successful
cancellation of that order — directly (`cancel_order` under any role/caller,
or `update_order_status` to `Cancelled`), or with an intervening transition
to `UnderReview` first — restores `uid`'s points balance and every variant's
`reserved` counter (indeed the whole variant table) to their values
immediately before the checkout. The two hypotheses on the start state
(non-negative reservation counters, order ids below the sequence counter)
hold in every reachable state. -/
theorem c3_cancel_after_checkout_roundtrip :
    ∀ (s : State) (p : OrderCreate) (uid : String) (s1 : State) (o : Order),
    (∀ k v, s.variants_by_sku k = some v → 0 ≤ v.reserved) →
    (∀ o' ∈ s.orders, o'.id ≠ s.order_id_seq) →
    create_order_ep s p (some "buyer") (some uid) = (s1, .ok o) →
    ((∀ rc uc s2 o2, cancel_order s1 o.id rc uc = (s2, .ok o2) →
        s2.user_points uid = s.user_points uid ∧
        ∀ k, s2.variants_by_sku k = s.variants_by_sku k) ∧
     (∀ s2 o2,
        update_order_status s1 o.id .otmenen (some "fulfillment_admin") = (s2, .ok o2) →
        s2.user_points uid = s.user_points uid ∧
        ∀ k, s2.variants_by_sku k = s.variants_by_sku k) ∧
     (∀ s2 o2 rc uc s3 o3,
        update_order_status s1 o.id .naProverke (some "fulfillment_admin") = (s2, .ok o2) →
        cancel_order s2 o.id rc uc = (s3, .ok o3) →
        s3.user_points uid = s.user_points uid ∧
        ∀ k, s3.variants_by_sku k = s.variants_by_sku k) ∧
     (∀ s2 o2 s3 o3,
        update_order_status s1 o.id .naProverke (some "fulfillment_admin") = (s2, .ok o2) →
        update_order_status s2 o.id .otmenen (some "fulfillment_admin") = (s3, .ok o3) →
        s3.user_points uid = s.user_points uid ∧
        ∀ k, s3.variants_by_sku k = s.variants_by_sku k)) := by
  intro s p uid s1 o hres0 hseq hco
  obtain ⟨hval, _, uid', huid', ho_eq, hs1_eq⟩ := create_order_ep_ok _ _ _ _ _ _ hco
  injection huid' with huid2
  subst huid2
  have hvs1 : s1.variants_by_sku = s.variants_by_sku := by rw [hs1_eq]
  have hpts1uid : s1.user_points uid =
      s.user_points uid - order_total (price_items s.variants_by_sku p.items) := by
    rw [hs1_eq]
    simp
  have hoid : o.id = s.order_id_seq := by rw [ho_eq]
  have houser : o.user_id = uid := by rw [ho_eq]
  have hototal : o.total_points = order_total (price_items s.variants_by_sku p.items) := by
    rw [ho_eq]
  have hoitems : o.items = price_items s.variants_by_sku p.items := by rw [ho_eq]
  have hores : o.reserved = false := by rw [ho_eq]
  have hfind1 : find_order s1.orders o.id = some o := by
    rw [ho_eq, hs1_eq]
    exact find_order_append_fresh s.orders _ (fun o' ho' => hseq o' ho')
  have hqo : ∀ it ∈ o.items, 0 ≤ it.qty := by
    rw [hoitems]
    intro it hit
    obtain ⟨it0, hit0, hq0, _⟩ := price_items_mem s.variants_by_sku p.items it hit
    have h1 := (valid_order_create_qty p hval it0 hit0).1
    omega
  refine ⟨?_, ?_, ?_, ?_⟩
  · intro rc uc s2 o2 hc
    obtain ⟨order, hfind, hcanc, hv, hp⟩ := cancel_order_ok s1 o.id rc uc s2 o2 hc
    rw [hfind1] at hfind
    injection hfind with horder
    subst horder
    refine ⟨?_, ?_⟩
    · rw [hp uid, if_pos houser.symm, houser, hototal, hpts1uid]
      ring
    · intro k
      rw [hv, hores, if_neg Bool.false_ne_true, hvs1]
  · intro s2 o2 hu
    obtain ⟨order, hfind, hcanc, hv, hp⟩ :=
      update_order_status_ok_otmenen s1 o.id _ s2 o2 hu
    rw [hfind1] at hfind
    injection hfind with horder
    subst horder
    refine ⟨?_, ?_⟩
    · rw [hp uid, if_pos houser.symm, houser, hototal, hpts1uid]
      ring
    · intro k
      rw [hv, hores, if_neg Bool.false_ne_true, hvs1]
  · intro s2 o2 rc uc s3 o3 hrev hc
    obtain ⟨order, hfind, hnov, ho2id, ho2user, ho2tot, ho2items, ho2status, ho2res,
      hpts2, hords2, hvar2⟩ := update_order_status_ok_review s1 o.id _ s2 o2 hrev
    rw [hfind1] at hfind
    injection hfind with horder
    subst horder
    rcases hvar2 with ⟨hres2, _⟩ | ⟨_, hvar2⟩
    · rw [hores] at hres2
      exact absurd hres2 Bool.false_ne_true
    · have hfind2 : find_order s2.orders o.id = some o2 := by
        rw [hords2]
        exact find_order_set_order_self _ _ _ _ hfind1 ho2id
      obtain ⟨order2, hfindc, hcanc2, hv3, hp3⟩ := cancel_order_ok s2 o.id rc uc s3 o3 hc
      rw [hfind2] at hfindc
      injection hfindc with ho22
      subst ho22
      refine ⟨?_, ?_⟩
      · rw [hp3 uid, if_pos (ho2user.trans houser).symm, ho2user, houser, ho2tot,
          hototal, hpts2, hpts1uid]
        ring
      · intro k
        rw [hv3, ho2res, if_pos rfl, ho2items, hvar2, hvs1]
        exact reserve_unreserve_roundtrip s.variants_by_sku o.items hres0 hqo k
  · intro s2 o2 s3 o3 hrev hu
    obtain ⟨order, hfind, hnov, ho2id, ho2user, ho2tot, ho2items, ho2status, ho2res,
      hpts2, hords2, hvar2⟩ := update_order_status_ok_review s1 o.id _ s2 o2 hrev
    rw [hfind1] at hfind
    injection hfind with horder
    subst horder
    rcases hvar2 with ⟨hres2, _⟩ | ⟨_, hvar2⟩
    · rw [hores] at hres2
      exact absurd hres2 Bool.false_ne_true
    · have hfind2 : find_order s2.orders o.id = some o2 := by
        rw [hords2]
        exact find_order_set_order_self _ _ _ _ hfind1 ho2id
      obtain ⟨order2, hfindc, hcanc2, hv3, hp3⟩ :=
        update_order_status_ok_otmenen s2 o.id _ s3 o3 hu
      rw [hfind2] at hfindc
      injection hfindc with ho22
      subst ho22
      refine ⟨?_, ?_⟩
      · rw [hp3 uid, if_pos (ho2user.trans houser).symm, ho2user, houser, ho2tot,
          hototal, hpts2, hpts1uid]
        ring
      · intro k
        rw [hv3, ho2res, if_pos rfl, ho2items, hvar2, hvs1]
        exact reserve_unreserve_roundtrip s.variants_by_sku o.items hres0 hqo k

/-- C4: for an existing order, `update_order_status` under role
`fulfillment_admin` fails with `InvalidStatusTransition` — leaving the whole
state unchanged — exactly on the (current, target) pairs outside the
`ALLOWED_TRANSITIONS` table (in particular on every pair whose source is
`Completed` or `Cancelled`, whose allowed sets are empty); on pairs inside
the table it never fails with `InvalidStatusTransition`. -/
theorem c4_transition_legality :
    ∀ (s : State) (oid : Nat) (o : Order) (t : OrderStatus),
    find_order s.orders oid = some o →
    (t ∉ ALLOWED_TRANSITIONS o.status →
      update_order_status s oid t (some "fulfillment_admin") =
        (s, .error .invalidStatusTransition)) ∧
    (t ∈ ALLOWED_TRANSITIONS o.status →
      (update_order_status s oid t (some "fulfillment_admin")).2 ≠
        .error .invalidStatusTransition) := by
  intro s oid o t hfind
  constructor
  · intro hnot
    unfold update_order_status
    dsimp only
    rw [if_neg (fun hh => hh rfl), hfind]
    dsimp only
    rw [if_neg hnot]
  · intro hmem
    unfold update_order_status finish_transition
    dsimp only
    rw [if_neg (fun hh => hh rfl), hfind]
    dsimp only
    rw [if_pos hmem]
    split
    · rename_i ht
      cases hr : reserve_for_order s o with
      | error e =>
        intro hc
        injection hc with hc'
        obtain ⟨_, hck⟩ := reserve_for_order_err s o e hr
        rcases check_items_error_kinds _ _ _ hck with rfl | rfl
        · exact ApiError.noConfusion hc'
        · exact ApiError.noConfusion hc'
      | ok p1 =>
        obtain ⟨s1, o1⟩ := p1
        intro hc
        exact Except.noConfusion hc
    · split
      · rename_i hnp ht
        split
        · intro hc
          exact Except.noConfusion hc
        · intro hc
          injection hc with hc'
          exact ApiError.noConfusion hc'
      · split
        · rename_i hnp hno ht
          cases hr : deduct_stock_on_complete s o with
          | error e =>
            intro hc
            injection hc with hc'
            rcases deduct_stock_error_kinds s o e hr with rfl | rfl
            · exact ApiError.noConfusion hc'
            · exact ApiError.noConfusion hc'
          | ok p1 =>
            obtain ⟨s1, o1⟩ := p1
            intro hc
            exact Except.noConfusion hc
        · intro hc
          exact Except.noConfusion hc

/-- C5: on an unreserved order in status `New`, transitioning to
`UnderReview` reserves all-or-nothing against the current committed variant
state: if some line has `available < qty` (all SKUs present), the call
returns `InsufficientStock` with the state untouched; if every line has
`available ≥ qty`, it succeeds, increments every SKU's `reserved` by the
summed line quantity, and marks the order reserved. -/
theorem c5_reserve_check_then_act :
    ∀ (s : State) (oid : Nat) (o : Order),
    find_order s.orders oid = some o → o.status = .novyi → o.reserved = false →
    (∀ it ∈ o.items, (s.variants_by_sku it.sku).isSome) →
    ((∃ it ∈ o.items, ∀ v, s.variants_by_sku it.sku = some v →
        v.stock_total - v.reserved < it.qty) →
      update_order_status s oid .naProverke (some "fulfillment_admin") =
        (s, .error .insufficientStock)) ∧
    ((∀ it ∈ o.items, ∀ v, s.variants_by_sku it.sku = some v →
        it.qty ≤ v.stock_total - v.reserved) →
      update_order_status s oid .naProverke (some "fulfillment_admin") =
        ({ s with
            variants_by_sku := reserve_items s.variants_by_sku o.items,
            orders := set_order s.orders oid
              ⟨o.id, o.user_id, .naProverke, o.items, o.total_points,
                o.history ++ [⟨some o.status, .naProverke, some "fulfillment_admin"⟩],
                true⟩ },
         .ok ⟨o.id, o.user_id, .naProverke, o.items, o.total_points,
                o.history ++ [⟨some o.status, .naProverke, some "fulfillment_admin"⟩],
                true⟩) ∧
      (∀ k, reserve_items s.variants_by_sku o.items k =
        (s.variants_by_sku k).map
          (fun v => { v with reserved := v.reserved + item_add o.items k }))) := by
  intro s oid o hfind hst hres hpres
  have hmem : OrderStatus.naProverke ∈ ALLOWED_TRANSITIONS o.status := by
    rw [hst]
    simp [ALLOWED_TRANSITIONS]
  constructor
  · intro hshort
    have hr : reserve_for_order s o = .error .insufficientStock := by
      unfold reserve_for_order
      rw [hres, if_neg Bool.false_ne_true,
        check_items_insufficient s.variants_by_sku o.items hpres hshort]
    unfold update_order_status
    dsimp only
    rw [if_neg (fun hh => hh rfl), hfind]
    dsimp only
    rw [if_pos hmem, if_pos rfl, hr]
  · intro hall
    have hchk : check_items s.variants_by_sku o.items = .ok () :=
      check_items_ok_of_avail _ _ hpres hall
    have hr : reserve_for_order s o = .ok
        ({ s with variants_by_sku := reserve_items s.variants_by_sku o.items },
         { o with reserved := true }) := by
      unfold reserve_for_order
      rw [hres, if_neg Bool.false_ne_true, hchk]
    refine ⟨?_, fun k => reserve_items_apply o.items s.variants_by_sku k⟩
    unfold update_order_status finish_transition
    dsimp only
    rw [if_neg (fun hh => hh rfl), hfind]
    dsimp only
    rw [if_pos hmem, if_pos rfl, hr]

/-- C8: reservation is idempotent — on an already-reserved order
`reserve_for_order` is a no-op, and immediately repeating a successful
reservation changes nothing: the counters move only once. -/
theorem c8_reserve_idempotent :
    ∀ (s : State) (o : Order),
    (o.reserved = true → reserve_for_order s o = .ok (s, o)) ∧
    (∀ s1 o1, reserve_for_order s o = .ok (s1, o1) →
      reserve_for_order s1 o1 = .ok (s1, o1)) := by
  intro s o
  constructor
  · intro h
    unfold reserve_for_order
    rw [h]
    exact if_pos rfl
  · intro s1 o1 h
    rcases reserve_for_order_ok s o s1 o1 h with ⟨hres, hs1, ho1⟩ | ⟨hres, hchk, hs1, ho1⟩
    · rw [hs1, ho1]
      unfold reserve_for_order
      rw [hres]
      exact if_pos rfl
    · rw [hs1, ho1]
      unfold reserve_for_order
      exact if_pos rfl

/-- C9: ownership is enforced only for buyers — `cancel_order` with role
`fulfillment_admin` succeeds on any existing order in a cancellable status
whatever the `X-User-Id` header holds, while with role `buyer` it fails with
`Forbidden` (state unchanged) whenever the order belongs to a different,
nonempty user id. -/
theorem c9_ownership_buyer_only :
    ∀ (s : State) (oid : Nat) (o : Order) (u : Option String),
    find_order s.orders oid = some o →
    (o.status ∈ CANCEL_ALLOWED →
      ∃ s2 o2, cancel_order s oid (some "fulfillment_admin") u = (s2, .ok o2)) ∧
    (∀ uid, uid ≠ "" → o.user_id ≠ uid →
      cancel_order s oid (some "buyer") (some uid) = (s, .error .forbidden)) := by
  intro s oid o u hfind
  constructor
  · intro hst
    unfold cancel_order cancel_commit finish_transition
    dsimp only
    rw [if_neg (fun hh => hh (Or.inr rfl)), hfind]
    dsimp only
    rw [if_neg (by decide : ¬ (some "fulfillment_admin" = some "buyer")), if_pos hst]
    exact ⟨_, _, rfl⟩
  · intro uid hne hown
    unfold cancel_order
    dsimp only
    rw [if_neg (fun hh => hh (Or.inl rfl)), hfind]
    dsimp only
    rw [if_pos rfl]
    try dsimp only
    rw [if_neg hne, if_pos hown]

/-- C10: checkout requests are rejected at input validation — with no state
change — whenever the item list is empty or some line's quantity is below 1
or above the undocumented cap of 1000, regardless of stock or balance. -/
theorem c10_checkout_validation_cap :
    ∀ (s : State) (p : OrderCreate) (r u : Option String),
    (p.items = [] ∨ ∃ it ∈ p.items, it.qty < 1 ∨ 1000 < it.qty) →
    create_order_ep s p r u = (s, .error .validationError) := by
  intro s p r u hbad
  have hinvalid : validOrderCreate p = false := by
    unfold validOrderCreate
    rcases hbad with hnil | ⟨it, hit, hq⟩
    · rw [hnil]
      rfl
    · have hall : p.items.all validOrderItemIn = false := by
        rw [List.all_eq_false]
        refine ⟨it, hit, ?_⟩
        unfold validOrderItemIn
        rcases hq with hq | hq
        · have h1 : decide (1 ≤ it.qty) = false := decide_eq_false (by omega)
          rw [h1, Bool.and_false, Bool.false_and]
          exact Bool.false_ne_true
        · have h1 : decide (it.qty ≤ 1000) = false := decide_eq_false (by omega)
          rw [h1, Bool.and_false]
          exact Bool.false_ne_true
      rw [hall, Bool.and_false]
  unfold create_order_ep
  rw [hinvalid]
  rfl

/- ---- helpers for the duplicate-free stock invariant ---- -/

theorem item_add_zero_of_no_sku (items : List OrderItem) (k : String)
    (h : ∀ it ∈ items, it.sku ≠ k) : item_add items k = 0 := by
  unfold item_add
  have hf : items.filter (fun it => it.sku == k) = [] := by
    rw [List.filter_eq_nil_iff]
    intro a ha
    simp only [ne_eq, beq_iff_eq]
    exact h a ha
  rw [hf]
  rfl

theorem res_sum_nonneg (l : List Order) (k : String)
    (hq : ∀ o ∈ l, ∀ it ∈ o.items, 1 ≤ it.qty) : 0 ≤ res_sum l k := by
  unfold res_sum
  refine List.sum_nonneg ?_
  intro x hx
  obtain ⟨o, ho, rfl⟩ := List.mem_map.mp hx
  unfold contrib
  split
  · exact item_add_nonneg _ _ (fun it hit => by have := hq o ho it hit; omega)
  · exact le_refl 0

theorem res_sum_zero_of_no_sku (l : List Order) (k : String)
    (h : ∀ o ∈ l, ∀ it ∈ o.items, it.sku ≠ k) : res_sum l k = 0 := by
  unfold res_sum
  refine List.sum_eq_zero ?_
  intro x hx
  obtain ⟨o, ho, rfl⟩ := List.mem_map.mp hx
  unfold contrib
  split
  · exact item_add_zero_of_no_sku _ _ (h o ho)
  · rfl

theorem contrib_le_res_sum (l : List Order) (o : Order) (ho : o ∈ l) (k : String)
    (hq : ∀ o' ∈ l, ∀ it ∈ o'.items, 1 ≤ it.qty) : contrib o k ≤ res_sum l k := by
  unfold res_sum
  refine List.single_le_sum ?_ _ (List.mem_map.mpr ⟨o, ho, rfl⟩)
  intro x hx
  obtain ⟨o', ho', rfl⟩ := List.mem_map.mp hx
  unfold contrib
  split
  · exact item_add_nonneg _ _ (fun it hit => by have := hq o' ho' it hit; omega)
  · exact le_refl 0

theorem contrib_congr (o2 order : Order) (k : String) (hitems : o2.items = order.items)
    (hres : o2.reserved = order.reserved) : contrib o2 k = contrib order k := by
  unfold contrib
  rw [hitems, hres]

theorem contrib_of_reserved (o : Order) (k : String) (h : o.reserved = true) :
    contrib o k = item_add o.items k := by
  unfold contrib
  rw [h]
  rfl

theorem contrib_of_unreserved (o : Order) (k : String) (h : o.reserved = false) :
    contrib o k = 0 := by
  unfold contrib
  rw [h]
  rfl

theorem qtys_eq_nil_of_no_sku (items : List OrderItem) (k : String)
    (h : ∀ it ∈ items, it.sku ≠ k) : qtys items k = [] := by
  unfold qtys
  have hf : items.filter (fun it => it.sku == k) = [] := by
    rw [List.filter_eq_nil_iff]
    intro a ha
    simp only [ne_eq, beq_iff_eq]
    exact h a ha
  rw [hf]
  rfl

theorem qtys_nodup_cases (items : List OrderItem) (k : String)
    (hnd : (items.map (·.sku)).Nodup) :
    (qtys items k = [] ∧ item_add items k = 0) ∨
    ∃ it, it ∈ items ∧ it.sku = k ∧ qtys items k = [it.qty] ∧
      item_add items k = it.qty := by
  induction items with
  | nil => exact Or.inl ⟨rfl, rfl⟩
  | cons it rest ih =>
    rw [List.map_cons, List.nodup_cons] at hnd
    by_cases hk : it.sku = k
    · right
      have hnone : ∀ a ∈ rest, a.sku ≠ k := by
        intro a ha hak
        exact hnd.1 (List.mem_map.mpr ⟨a, ha, by rw [hak, hk]⟩)
      have hnil := qtys_eq_nil_of_no_sku rest k hnone
      refine ⟨it, List.mem_cons_self _ _, hk, ?_, ?_⟩
      · rw [qtys_cons, if_pos hk, hnil]
      · rw [item_add_cons, if_pos hk, item_add_zero_of_no_sku rest k hnone]
        ring
    · rw [qtys_cons, if_neg hk, item_add_cons, if_neg hk, zero_add]
      rcases ih hnd.2 with h0 | ⟨it', hit', hsk, hq1, hq2⟩
      · exact Or.inl h0
      · exact Or.inr ⟨it', List.mem_cons_of_mem _ hit', hsk, hq1, hq2⟩

theorem sub_chain_exact_nodup (items : List OrderItem) (k : String)
    (hnd : (items.map (·.sku)).Nodup) (r : Int) (hle : item_add items k ≤ r) :
    sub_chain r (qtys items k) = r - item_add items k := by
  rcases qtys_nodup_cases items k hnd with ⟨hq, ha⟩ | ⟨it, _, _, hq, ha⟩
  · rw [hq, ha, sub_chain_nil]
    ring
  · rw [ha] at hle
    rw [hq, ha, sub_chain_cons, sub_chain_nil, max_eq_right (by omega)]

theorem insert_fold_cases (vs : List Variant) (m : VariantMap) (k : String) :
    (vs.foldl (fun acc v => fun k' => if k' = v.sku then some v else acc k') m) k = m k ∨
    ∃ w ∈ vs, w.sku = k ∧
      (vs.foldl (fun acc v => fun k' => if k' = v.sku then some v else acc k') m) k =
        some w := by
  induction vs generalizing m with
  | nil => exact Or.inl rfl
  | cons v rest ih =>
    have hstep : ((v :: rest).foldl
        (fun acc w => fun k' => if k' = w.sku then some w else acc k') m) k =
      (rest.foldl (fun acc w => fun k' => if k' = w.sku then some w else acc k')
        (fun k' => if k' = v.sku then some v else m k')) k := rfl
    rw [hstep]
    rcases ih (fun k' => if k' = v.sku then some v else m k') with h | ⟨w, hw, hsk, hval⟩
    · rw [h]
      by_cases hk : k = v.sku
      · exact Or.inr ⟨v, List.mem_cons_self _ _, hk.symm, by rw [if_pos hk]⟩
      · rw [if_neg hk]
        exact Or.inl rfl
    · exact Or.inr ⟨w, List.mem_cons_of_mem _ hw, hsk, hval⟩

theorem valid_product_create_fields (p : ProductCreate) (h : validProductCreate p = true) :
    ∀ v ∈ p.variants, 0 ≤ v.price_points ∧ 0 ≤ v.stock_total := by
  unfold validProductCreate at h
  rw [Bool.and_eq_true] at h
  intro v hv
  have h2 := List.all_eq_true.mp h.2 v hv
  unfold validVariantIn at h2
  rw [Bool.and_eq_true, Bool.and_eq_true] at h2
  exact ⟨of_decide_eq_true h2.1.2, of_decide_eq_true h2.2⟩

theorem price_items_map_sku (m : VariantMap) (items : List OrderItemIn) :
    (price_items m items).map (·.sku) = items.map (·.sku) := by
  induction items with
  | nil => rfl
  | cons it rest ih =>
    unfold price_items at *
    simp only [List.map_cons]
    rw [ih]
    congr 1
    cases hm : m it.sku <;> simp [hm]

/- ---- the duplicate-free stock invariant ---- -/


theorem ndp_init : NDP initState := by
  refine ⟨?_, ?_, ?_, ?_, ?_⟩
  · intro o ho
    cases ho
  · intro o ho
    cases ho
  · intro o ho
    cases ho
  · intro k v hv
    exact Option.noConfusion hv
  · intro k v hv
    exact Option.noConfusion hv

theorem reserve_items_isSome (m : VariantMap) (items : List OrderItem) (k : String)
    (h : (m k).isSome = true) : ((reserve_items m items) k).isSome = true := by
  rw [reserve_items_apply]
  cases hm : m k with
  | none => rw [hm] at h; exact Bool.noConfusion h
  | some v => simp

theorem unreserve_items_isSome (m : VariantMap) (items : List OrderItem) (k : String)
    (h : (m k).isSome = true) : ((unreserve_items m items) k).isSome = true := by
  rw [unreserve_items_apply]
  cases hm : m k with
  | none => rw [hm] at h; exact Bool.noConfusion h
  | some v => simp

theorem deduct_items_isSome (m : VariantMap) (items : List OrderItem) (k : String)
    (h : (m k).isSome = true) : ((deduct_items m items) k).isSome = true := by
  rw [deduct_items_apply]
  cases hm : m k with
  | none => rw [hm] at h; exact Bool.noConfusion h
  | some v => simp

theorem contrib_cancel (R : Int) (order o2 : Order) (k : String)
    (hi : o2.items = order.items) (hr : o2.reserved = order.reserved) :
    R = R - contrib order k + contrib o2 k := by
  rw [contrib_congr o2 order k hi hr]
  ring

/-- Preservation of `NDP` by a status commit writing `o2` into the table
and `vm` into the variant map, for arbitrary values of the remaining
fields (which `NDP` does not read). -/
theorem ndp_commit (s : State) (order o2 : Order) (oid : Nat) (vm : VariantMap)
    (pseq oseq : Nat) (prods : List Product) (upts : String → Int)
    (led : List LedgerEntry)
    (hB : InvB s) (hnd : NDP s) (hfind : find_order s.orders oid = some order)
    (hid : o2.id = order.id) (hitems : o2.items = order.items)
    (hdom : ∀ k, (s.variants_by_sku k).isSome = true → (vm k).isSome = true)
    (hsum : ∀ k v, vm k = some v →
      v.reserved = res_sum s.orders k - contrib order k + contrib o2 k)
    (hbound : ∀ k v, vm k = some v → v.reserved ≤ v.stock_total) :
    NDP { product_id_seq := pseq, order_id_seq := oseq, products := prods,
          variants_by_sku := vm, orders := set_order s.orders oid o2,
          user_points := upts, ledger := led } := by
  obtain ⟨hmem, hoid⟩ := find_order_mem _ _ _ hfind
  refine ⟨?_, ?_, ?_, ?_, ?_⟩
  · intro o ho
    rcases mem_set_order _ _ _ _ ho with heq | ⟨ho', _⟩
    · subst heq
      rw [hitems]
      exact hnd.1 order hmem
    · exact hnd.1 o ho'
  · intro o ho
    rcases mem_set_order _ _ _ _ ho with heq | ⟨ho', _⟩
    · subst heq
      intro it hit
      rw [hitems] at hit
      exact hnd.2.1 order hmem it hit
    · exact hnd.2.1 o ho'
  · intro o ho it hit
    rcases mem_set_order _ _ _ _ ho with heq | ⟨ho', _⟩
    · subst heq
      rw [hitems] at hit
      exact hdom _ (hnd.2.2.1 order hmem it hit)
    · exact hdom _ (hnd.2.2.1 o ho' it hit)
  · intro k v hv
    show v.reserved = res_sum (set_order s.orders oid o2) k
    rw [res_sum_set_order s.orders oid order o2 k hB.2.1 hfind (hid.trans hoid)]
    exact hsum k v hv
  · exact hbound

/-- Preservation of `NDP` by the shared cancellation tail. -/
theorem ndp_finish_cancel (s : State) (order : Order) (oid : Nat) (role : Option String)
    (hB : InvB s) (hnd : NDP s) (hfind : find_order s.orders oid = some order) :
    NDP (finish_transition
      (refund_points (unreserve_for_order s order).1 (unreserve_for_order s order).2)
      (unreserve_for_order s order).2 oid order.status .otmenen role).1 := by
  have hmem := (find_order_mem _ _ _ hfind).1
  cases ho : order.reserved with
  | true =>
    have hu : unreserve_for_order s order =
        ({ s with variants_by_sku := unreserve_items s.variants_by_sku order.items },
         { order with reserved := false }) := by
      unfold unreserve_for_order
      rw [ho]
      exact if_pos rfl
    rw [hu]
    unfold finish_transition refund_points
    dsimp only
    refine ndp_commit s order _ oid _ _ _ _ _ _ hB hnd hfind rfl rfl ?_ ?_ ?_
    · intro k hk
      exact unreserve_items_isSome _ _ _ hk
    · intro k v hv
      rw [unreserve_items_apply] at hv
      cases hm : s.variants_by_sku k with
      | none => rw [hm] at hv; exact Option.noConfusion hv
      | some v0 =>
        rw [hm] at hv
        injection hv with hv'
        rw [← hv']
        have hle : item_add order.items k ≤ v0.reserved := by
          rw [hnd.2.2.2.1 k v0 hm]
          have := contrib_le_res_sum s.orders order hmem k hnd.2.1
          rw [contrib_of_reserved order k ho] at this
          exact this
        show sub_chain v0.reserved (qtys order.items k) = _
        rw [sub_chain_exact_nodup order.items k (hnd.1 order hmem) v0.reserved hle,
          hnd.2.2.2.1 k v0 hm, contrib_of_reserved order k ho,
          contrib_of_unreserved _ k rfl]
        ring
    · intro k v hv
      rw [unreserve_items_apply] at hv
      cases hm : s.variants_by_sku k with
      | none => rw [hm] at hv; exact Option.noConfusion hv
      | some v0 =>
        rw [hm] at hv
        injection hv with hv'
        rw [← hv']
        have h1 := hnd.2.2.2.2 k v0 hm
        have h2 := hnd.2.2.2.1 k v0 hm
        have hia : 0 ≤ item_add order.items k :=
          item_add_nonneg _ _ (fun it hit => by have := hnd.2.1 order hmem it hit; omega)
        have hle : item_add order.items k ≤ v0.reserved := by
          rw [h2]
          have := contrib_le_res_sum s.orders order hmem k hnd.2.1
          rw [contrib_of_reserved order k ho] at this
          exact this
        show sub_chain v0.reserved (qtys order.items k) ≤ v0.stock_total
        rw [sub_chain_exact_nodup order.items k (hnd.1 order hmem) v0.reserved hle]
        omega
  | false =>
    have hu : unreserve_for_order s order = (s, order) := by
      unfold unreserve_for_order
      rw [ho]
      exact if_neg Bool.false_ne_true
    rw [hu]
    unfold finish_transition refund_points
    dsimp only
    refine ndp_commit s order _ oid _ _ _ _ _ _ hB hnd hfind rfl rfl
      (fun k hk => hk) ?_ hnd.2.2.2.2
    intro k v hv
    rw [hnd.2.2.2.1 k v hv]
    exact contrib_cancel _ order _ k rfl rfl

theorem ndp_update_order_status (s : State) (oid : Nat) (t : OrderStatus)
    (r : Option String) (hB : InvB s) (hnd : NDP s) :
    NDP (update_order_status s oid t r).1 := by
  unfold update_order_status finish_transition
  dsimp only
  split
  · exact hnd
  split
  · exact hnd
  rename_i order heq
  have hmem := (find_order_mem _ _ _ heq).1
  split
  · rename_i hallow
    split
    · rename_i ht
      split
      · exact hnd
      rename_i s1 o1 heq2
      rcases reserve_for_order_ok s order s1 o1 heq2 with
        ⟨hres, hs1, ho1⟩ | ⟨hres, hchk, hs1, ho1⟩
      · rw [hs1, ho1]
        refine ndp_commit s order _ oid _ _ _ _ _ _ hB hnd heq rfl rfl
          (fun k hk => hk) ?_ hnd.2.2.2.2
        intro k v hv
        rw [hnd.2.2.2.1 k v hv]
        exact contrib_cancel _ order _ k rfl rfl
      · rw [hs1, ho1]
        refine ndp_commit s order _ oid _ _ _ _ _ _ hB hnd heq rfl rfl ?_ ?_ ?_
        · intro k hk
          exact reserve_items_isSome _ _ _ hk
        · intro k v hv
          dsimp only at hv ⊢
          rw [reserve_items_apply] at hv
          cases hm : s.variants_by_sku k with
          | none => rw [hm] at hv; exact Option.noConfusion hv
          | some v0 =>
            rw [hm] at hv
            injection hv with hv'
            rw [← hv']
            show v0.reserved + item_add order.items k = _
            rw [hnd.2.2.2.1 k v0 hm, contrib_of_unreserved order k hres,
              contrib_of_reserved _ k rfl]
            show _ = res_sum s.orders k - 0 + item_add order.items k
            ring
        · intro k v hv
          dsimp only at hv ⊢
          rw [reserve_items_apply] at hv
          cases hm : s.variants_by_sku k with
          | none => rw [hm] at hv; exact Option.noConfusion hv
          | some v0 =>
            rw [hm] at hv
            injection hv with hv'
            rw [← hv']
            show v0.reserved + item_add order.items k ≤ v0.stock_total
            rcases qtys_nodup_cases order.items k (hnd.1 order hmem) with
              ⟨_, ha⟩ | ⟨it, hit, hsk, _, ha⟩
            · rw [ha]
              have := hnd.2.2.2.2 k v0 hm
              omega
            · obtain ⟨v', hv2, hb⟩ := check_items_ok _ _ _ hchk it hit
              rw [hsk, hm] at hv2
              injection hv2 with hv2'
              rw [← hv2'] at hb
              omega
    · split
      · rename_i hnp ht
        split
        · rename_i hcanc
          subst ht
          exact ndp_finish_cancel s order oid r hB hnd heq
        · exact hnd
      · split
        · rename_i hnp hno ht
          split
          · exact hnd
          rename_i s1 o1 heq2
          rcases deduct_stock_on_complete_ok s order s1 o1 heq2 with
            ⟨hres, hs1, ho1⟩ | ⟨hres, hchk, hs1, ho1⟩
          · rw [hs1, ho1]
            refine ndp_commit s order _ oid _ _ _ _ _ _ hB hnd heq rfl rfl ?_ ?_ ?_
            · intro k hk
              exact deduct_items_isSome _ _ _ hk
            · intro k v hv
              dsimp only at hv ⊢
              rw [deduct_items_apply] at hv
              cases hm : s.variants_by_sku k with
              | none => rw [hm] at hv; exact Option.noConfusion hv
              | some v0 =>
                rw [hm] at hv
                injection hv with hv'
                rw [← hv']
                have hle : item_add order.items k ≤ v0.reserved := by
                  rw [hnd.2.2.2.1 k v0 hm]
                  have := contrib_le_res_sum s.orders order hmem k hnd.2.1
                  rw [contrib_of_reserved order k hres] at this
                  exact this
                show sub_chain v0.reserved (qtys order.items k) = _
                rw [sub_chain_exact_nodup order.items k (hnd.1 order hmem) v0.reserved hle,
                  hnd.2.2.2.1 k v0 hm, contrib_of_reserved order k hres,
                  contrib_of_unreserved _ k rfl]
                ring
            · intro k v hv
              dsimp only at hv ⊢
              rw [deduct_items_apply] at hv
              cases hm : s.variants_by_sku k with
              | none => rw [hm] at hv; exact Option.noConfusion hv
              | some v0 =>
                rw [hm] at hv
                injection hv with hv'
                rw [← hv']
                have hle : item_add order.items k ≤ v0.reserved := by
                  rw [hnd.2.2.2.1 k v0 hm]
                  have := contrib_le_res_sum s.orders order hmem k hnd.2.1
                  rw [contrib_of_reserved order k hres] at this
                  exact this
                show sub_chain v0.reserved (qtys order.items k) ≤
                  v0.stock_total - item_add order.items k
                rw [sub_chain_exact_nodup order.items k (hnd.1 order hmem) v0.reserved hle]
                have := hnd.2.2.2.2 k v0 hm
                omega
          · rw [hs1, ho1]
            refine ndp_commit s order _ oid _ _ _ _ _ _ hB hnd heq rfl rfl ?_ ?_ ?_
            · intro k hk
              exact deduct_items_isSome _ _ _ (reserve_items_isSome _ _ _ hk)
            · intro k v hv
              dsimp only at hv ⊢
              rw [deduct_items_apply, reserve_items_apply] at hv
              cases hm : s.variants_by_sku k with
              | none => rw [hm] at hv; exact Option.noConfusion hv
              | some v0 =>
                rw [hm] at hv
                simp only [Option.map_some'] at hv
                injection hv with hv'
                rw [← hv']
                have hr0 : 0 ≤ v0.reserved := by
                  rw [hnd.2.2.2.1 k v0 hm]
                  exact res_sum_nonneg s.orders k hnd.2.1
                have hle : item_add order.items k ≤ v0.reserved + item_add order.items k := by
                  omega
                show sub_chain (v0.reserved + item_add order.items k)
                  (qtys order.items k) = _
                rw [sub_chain_exact_nodup order.items k (hnd.1 order hmem) _ hle,
                  hnd.2.2.2.1 k v0 hm, contrib_of_unreserved order k hres,
                  contrib_of_unreserved _ k rfl]
                ring
            · intro k v hv
              dsimp only at hv ⊢
              rw [deduct_items_apply, reserve_items_apply] at hv
              cases hm : s.variants_by_sku k with
              | none => rw [hm] at hv; exact Option.noConfusion hv
              | some v0 =>
                rw [hm] at hv
                simp only [Option.map_some'] at hv
                injection hv with hv'
                rw [← hv']
                have hr0 : 0 ≤ v0.reserved := by
                  rw [hnd.2.2.2.1 k v0 hm]
                  exact res_sum_nonneg s.orders k hnd.2.1
                have hle : item_add order.items k ≤ v0.reserved + item_add order.items k := by
                  omega
                show sub_chain (v0.reserved + item_add order.items k)
                  (qtys order.items k) ≤ v0.stock_total - item_add order.items k
                rw [sub_chain_exact_nodup order.items k (hnd.1 order hmem) _ hle]
                rcases qtys_nodup_cases order.items k (hnd.1 order hmem) with
                  ⟨_, ha⟩ | ⟨it, hit, hsk, _, ha⟩
                · rw [ha]
                  have := hnd.2.2.2.2 k v0 hm
                  omega
                · obtain ⟨v', hv2, hb⟩ := check_items_ok _ _ _ hchk it hit
                  rw [hsk, hm] at hv2
                  injection hv2 with hv2'
                  rw [← hv2'] at hb
                  omega
        · refine ndp_commit s order _ oid _ _ _ _ _ _ hB hnd heq rfl rfl
            (fun k hk => hk) ?_ hnd.2.2.2.2
          intro k v hv
          rw [hnd.2.2.2.1 k v hv]
          exact contrib_cancel _ order _ k rfl rfl
  · exact hnd

theorem ndp_cancel_order (s : State) (oid : Nat) (r u : Option String)
    (hB : InvB s) (hnd : NDP s) : NDP (cancel_order s oid r u).1 := by
  unfold cancel_order cancel_commit
  dsimp only
  split
  · exact hnd
  split
  · exact hnd
  rename_i order heq
  split
  · split
    · exact hnd
    rename_i uid
    split
    · exact hnd
    split
    · exact hnd
    split
    · exact ndp_finish_cancel s order oid r hB hnd heq
    · exact hnd
  · split
    · exact ndp_finish_cancel s order oid r hB hnd heq
    · exact hnd

theorem ndp_create_product (s : State) (p : ProductCreate) (r : Option String)
    (hnd : NDP s) : NDP (create_product_ep s p r).1 := by
  unfold create_product_ep create_product
  dsimp only
  split
  · rename_i hval
    split
    · exact hnd
    split
    · exact ⟨hnd.1, hnd.2.1, hnd.2.2.1, hnd.2.2.2.1, hnd.2.2.2.2⟩
    split
    · exact ⟨hnd.1, hnd.2.1, hnd.2.2.1, hnd.2.2.2.1, hnd.2.2.2.2⟩
    rename_i hnodup hnotex
    rw [Bool.not_eq_true, List.any_eq_false] at hnotex
    dsimp only
    refine ⟨hnd.1, hnd.2.1, ?_, ?_, ?_⟩
    · intro o ho it hit
      dsimp only
      rcases insert_fold_cases
          (p.variants.map (fun v =>
            ⟨v.sku, v.size, v.color, v.price_points, v.stock_total, 0, s.product_id_seq⟩))
          s.variants_by_sku it.sku with hcase | ⟨w, hw, hsk, hcase⟩
      · show (_ : Option Variant).isSome = true
        rw [hcase]
        exact hnd.2.2.1 o ho it hit
      · show (_ : Option Variant).isSome = true
        rw [hcase]
        rfl
    · intro k v hv
      rcases insert_fold_cases
          (p.variants.map (fun v =>
            ⟨v.sku, v.size, v.color, v.price_points, v.stock_total, 0, s.product_id_seq⟩))
          s.variants_by_sku k with hcase | ⟨w, hw, hsk, hcase⟩
      · dsimp only at hv
        rw [hcase] at hv
        exact hnd.2.2.2.1 k v hv
      · dsimp only at hv
        rw [hcase] at hv
        injection hv with hv'
        obtain ⟨v0, hv0, hw0⟩ := List.mem_map.mp hw
        have hknew : (s.variants_by_sku k).isSome = false := by
          have := hnotex k (by
            rw [← hsk, ← hw0]
            exact List.mem_map.mpr ⟨v0, hv0, rfl⟩)
          exact Bool.not_eq_true _ |>.mp this
        have hz : res_sum s.orders k = 0 := by
          refine res_sum_zero_of_no_sku s.orders k ?_
          intro o ho it hit hsku
          have := hnd.2.2.1 o ho it hit
          rw [hsku, hknew] at this
          exact Bool.noConfusion this
        rw [← hv', ← hw0, hz]
    · intro k v hv
      rcases insert_fold_cases
          (p.variants.map (fun v =>
            ⟨v.sku, v.size, v.color, v.price_points, v.stock_total, 0, s.product_id_seq⟩))
          s.variants_by_sku k with hcase | ⟨w, hw, hsk, hcase⟩
      · dsimp only at hv
        rw [hcase] at hv
        exact hnd.2.2.2.2 k v hv
      · dsimp only at hv
        rw [hcase] at hv
        injection hv with hv'
        obtain ⟨v0, hv0, hw0⟩ := List.mem_map.mp hw
        have hst := (valid_product_create_fields p hval v0 hv0).2
        rw [← hv', ← hw0]
        show (0 : Int) ≤ v0.stock_total
        exact hst
  · exact hnd

theorem ndp_create_order (s : State) (p : OrderCreate) (r u : Option String)
    (hpay : (p.items.map (·.sku)).Nodup) (hnd : NDP s) :
    NDP (create_order_ep s p r u).1 := by
  unfold create_order_ep create_order
  dsimp only
  split
  · rename_i hval
    split
    · exact hnd
    split
    · exact hnd
    rename_i uid
    split
    · exact hnd
    split
    · exact hnd
    rename_i x hchk
    split
    · exact hnd
    refine ⟨?_, ?_, ?_, ?_, hnd.2.2.2.2⟩
    · intro o ho
      rcases List.mem_append.mp ho with ho | ho
      · exact hnd.1 o ho
      · rcases List.mem_singleton.mp ho with rfl
        show ((price_items s.variants_by_sku p.items).map (·.sku)).Nodup
        rw [price_items_map_sku]
        exact hpay
    · intro o ho it hit
      rcases List.mem_append.mp ho with ho | ho
      · exact hnd.2.1 o ho it hit
      · rcases List.mem_singleton.mp ho with rfl
        obtain ⟨it0, hit0, hq, _⟩ := price_items_mem s.variants_by_sku p.items it hit
        rw [hq]
        exact (valid_order_create_qty p hval it0 hit0).1
    · intro o ho it hit
      rcases List.mem_append.mp ho with ho | ho
      · exact hnd.2.2.1 o ho it hit
      · rcases List.mem_singleton.mp ho with rfl
        obtain ⟨it0, hit0, _, hsk⟩ := price_items_mem s.variants_by_sku p.items it hit
        show (s.variants_by_sku it.sku).isSome = true
        rw [hsk]
        exact check_skus_ok s.variants_by_sku p.items () hchk it0 hit0
    · intro k v hv
      show v.reserved = res_sum (s.orders ++ [_]) k
      rw [res_sum_append, res_sum_cons]
      rw [contrib_of_unreserved _ k rfl]
      show v.reserved = res_sum s.orders k + (0 + res_sum [] k)
      rw [hnd.2.2.2.1 k v hv]
      show res_sum s.orders k = res_sum s.orders k + (0 + 0)
      ring
  · exact hnd


theorem invND_stepND (s s' : State) (hstep : StepND s s') (h : InvND s) : InvND s' := by
  cases hstep with
  | create_product p r =>
    exact ⟨invB_create_product s p r h.1, ndp_create_product s p r h.2⟩
  | create_order p r u hndpay =>
    exact ⟨invB_create_order s p r u h.1, ndp_create_order s p r u hndpay h.2⟩
  | update_order_status oid t r =>
    exact ⟨invB_update_order_status s oid t r h.1,
      ndp_update_order_status s oid t r h.1 h.2⟩
  | cancel_order oid r u =>
    exact ⟨invB_cancel_order s oid r u h.1, ndp_cancel_order s oid r u h.1 h.2⟩

theorem invND_reachableND (s : State) (h : ReachableND s) : InvND s := by
  induction h with
  | refl => exact ⟨invB_init, ndp_init⟩
  | tail hab hbc ih => exact invND_stepND _ _ hbc ih

/- ---- remaining claims ---- -/

/-- C1 (corrected): a failing call to any of the four core operations leaves
the whole state unchanged — except that a failing `create_product` that got
past the role check has already advanced the product id sequence counter.
All other components (products, variants, orders, balances, ledger, order id
counter) are exactly restored, while `product_id_seq` ends as either its old
value or its old value plus one; the plus-one case is genuinely reached, see
the counterexample. -/
theorem c1_error_paths_atomic :
    ∀ (s : State) (e : ApiError),
    (∀ p r s', create_product_ep s p r = (s', .error e) →
        s'.products = s.products ∧ s'.variants_by_sku = s.variants_by_sku ∧
        s'.orders = s.orders ∧ s'.user_points = s.user_points ∧
        s'.ledger = s.ledger ∧ s'.order_id_seq = s.order_id_seq ∧
        (s'.product_id_seq = s.product_id_seq ∨
          s'.product_id_seq = s.product_id_seq + 1)) ∧
    (∀ p r u s', create_order_ep s p r u = (s', .error e) → s' = s) ∧
    (∀ oid t r s', update_order_status s oid t r = (s', .error e) → s' = s) ∧
    (∀ oid r u s', cancel_order s oid r u = (s', .error e) → s' = s) := by
  intro s e
  refine ⟨?_, ?_, ?_, ?_⟩
  · intro p r s' h
    rcases create_product_ep_error_state s p r s' e h with rfl | rfl
    · exact ⟨rfl, rfl, rfl, rfl, rfl, rfl, Or.inl rfl⟩
    · exact ⟨rfl, rfl, rfl, rfl, rfl, rfl, Or.inr rfl⟩
  · intro p r u s' h
    exact create_order_ep_error_state s p r u s' e h
  · intro oid t r s' h
    exact update_order_status_error_state s oid t r s' e h
  · intro oid r u s' h
    exact cancel_order_error_state s oid r u s' e h

/-- Counterexample to the unqualified C1: the duplicate-SKU product request
is rejected with a validation error, yet the product id sequence counter has
visibly moved from 1 to 2 — the failed call was not atomic. -/
theorem c1_error_paths_atomic_cex :
    (create_product_ep initState prodDup (some "content_admin")).2 =
      .error .validationError ∧
    initState.product_id_seq = 1 ∧ sB1.product_id_seq = 2 :=
  ⟨rfl, rfl, rfl⟩

/-- Witness for C1 on the rejected duplicate-SKU request from the initial
state: all components besides the product id counter are untouched. -/
theorem c1_error_paths_atomic_witness :
    sB1.products = initState.products ∧
    sB1.variants_by_sku = initState.variants_by_sku ∧
    sB1.orders = initState.orders ∧
    sB1.user_points = initState.user_points ∧
    sB1.ledger = initState.ledger ∧
    sB1.order_id_seq = initState.order_id_seq ∧
    (sB1.product_id_seq = initState.product_id_seq ∨
      sB1.product_id_seq = initState.product_id_seq + 1) :=
  (c1_error_paths_atomic initState .validationError).1 prodDup
    (some "content_admin") sB1 rfl

/-- C2 (corrected): in every state reachable through the endpoints given
that each checkout request lists every SKU at most once, every variant of
the table satisfies `0 ≤ reserved ∧ reserved ≤ stock_total` (hence
`0 ≤ stock_total`). Without the duplicate-free restriction the invariant is
false, see the counterexample: `create_order` does not merge or re-check
duplicate lines and the per-line stock check runs against the same committed
state for every line. -/
theorem c2_reserved_within_stock :
    ∀ (s : State), ReachableND s → ∀ k v, s.variants_by_sku k = some v →
      0 ≤ v.reserved ∧ v.reserved ≤ v.stock_total ∧ 0 ≤ v.stock_total := by
  intro s h k v hv
  obtain ⟨hB, hnd⟩ := invND_reachableND s h
  have h0 : 0 ≤ v.reserved := by
    rw [hnd.2.2.2.1 k v hv]
    exact res_sum_nonneg s.orders k hnd.2.1
  have h1 := hnd.2.2.2.2 k v hv
  exact ⟨h0, h1, le_trans h0 h1⟩

/-- Counterexample to the unqualified C2: a duplicate-SKU checkout (stock 5,
two lines of three units of SKU "A") transitioned to review yields a
reachable state whose variant holds `reserved = 6 > stock_total = 5`. -/
theorem c2_reserved_within_stock_cex :
    Reachable sD3 ∧
    sD3.variants_by_sku "A" = some ⟨"A", none, none, 1, 5, 6, 1⟩ ∧
    ¬ ((⟨"A", none, none, 1, 5, 6, 1⟩ : Variant).reserved ≤
        (⟨"A", none, none, 1, 5, 6, 1⟩ : Variant).stock_total) := by
  refine ⟨?_, rfl, by decide⟩
  exact Relation.ReflTransGen.tail (Relation.ReflTransGen.tail
    (Relation.ReflTransGen.tail Relation.ReflTransGen.refl
      (Step.create_product initState prodC (some "content_admin")))
    (Step.create_order sD1 payDup (some "buyer") (some "u1")))
    (Step.update_order_status sD2 1 .naProverke (some "fulfillment_admin"))

/-- Witness for C2 on the state reached by one duplicate-free product
creation: the shirt variant satisfies the stock bounds. -/
theorem c2_reserved_within_stock_witness :
    0 ≤ vA.reserved ∧ vA.reserved ≤ vA.stock_total ∧ 0 ≤ vA.stock_total :=
  c2_reserved_within_stock sA1
    (Relation.ReflTransGen.tail Relation.ReflTransGen.refl
      (StepND.create_product initState prodA (some "content_admin")))
    "TSHIRT-M" vA rfl

/-- C6: refunds post at most once per order. In every reachable state each
order has exactly one `ORDER_CANCELLED` ledger entry if it is cancelled and
none otherwise (so never more than one), every such entry credits the
owning buyer exactly the order's `total_points` — and once an order is
cancelled, no further sequence of operations changes its refund count. -/
theorem c6_refund_at_most_once :
    ∀ (s : State), Reachable s →
    ((∀ o ∈ s.orders, cancel_count s.ledger o.id =
        if o.status = .otmenen then 1 else 0) ∧
     (∀ o ∈ s.orders, cancel_count s.ledger o.id ≤ 1) ∧
     (∀ e ∈ s.ledger, e.reason = "ORDER_CANCELLED" →
        ∃ o, o ∈ s.orders ∧ e.order_id = some o.id ∧
          e.delta = o.total_points ∧ e.user_id = o.user_id) ∧
     (∀ s' o, Steps s s' → o ∈ s.orders → o.status = .otmenen →
        cancel_count s'.ledger o.id = 1)) := by
  intro s hreach
  have hinv := invB_reachable s hreach
  refine ⟨hinv.2.2.2.1, ?_, hinv.2.2.1, ?_⟩
  · intro o ho
    have h := hinv.2.2.2.1 o ho
    rw [h]
    split <;> omega
  · intro s' o hsteps ho hst
    exact cancelled_refund_stays_one s s' hreach hsteps o ho hst

/-- Witness for C6 on the cancelled three-shirt order: its refund count is
exactly one (and hence at most one). -/
theorem c6_refund_at_most_once_witness :
    cancel_count sA3c.ledger 1 = 1 ∧ cancel_count sA3c.ledger 1 ≤ 1 := by
  have h := c6_refund_at_most_once sA3c
    (Relation.ReflTransGen.tail (Relation.ReflTransGen.tail
      (Relation.ReflTransGen.tail Relation.ReflTransGen.refl
        (Step.create_product initState prodA (some "content_admin")))
      (Step.create_order sA1 payA (some "buyer") (some "u1")))
      (Step.cancel_order sA2 1 (some "buyer") (some "u1")))
  have hmem : oAc ∈ sA3c.orders := List.mem_singleton_self oAc
  exact ⟨h.1 oAc hmem, h.2.1 oAc hmem⟩

/-- C7: in every reachable state and for every user, the sum of that user's
ledger deltas equals the current balance minus the seeded balance from
module start (0 for users never seeded). -/
theorem c7_ledger_sum_reconciles :
    ∀ (s : State), Reachable s →
    ∀ u, ledger_sum s.ledger u = s.user_points u - initState.user_points u :=
  fun s h u => (invB_reachable s h).2.2.2.2 u

/-- Witness for C7 after the three-shirt checkout: the ledger for `u1` sums
to the new balance 4700 minus the seed 5000. -/
theorem c7_ledger_sum_reconciles_witness :
    ledger_sum sA2.ledger "u1" = 4700 - 5000 :=
  (c7_ledger_sum_reconciles sA2
    (Relation.ReflTransGen.tail (Relation.ReflTransGen.tail
      Relation.ReflTransGen.refl
      (Step.create_product initState prodA (some "content_admin")))
      (Step.create_order sA1 payA (some "buyer") (some "u1")))
    "u1").trans rfl

/-- Witness for C3 on the walkthrough scenario: checkout three shirts as
`u1`, then cancel as the buyer — the balance and the shirt variant return
to their pre-checkout values. -/
theorem c3_cancel_after_checkout_roundtrip_witness :
    sA3c.user_points "u1" = sA1.user_points "u1" ∧
    sA3c.variants_by_sku "TSHIRT-M" = sA1.variants_by_sku "TSHIRT-M" := by
  have h := c3_cancel_after_checkout_roundtrip sA1 payA "u1" sA2 oA
    (by
      intro k v hv
      have hv' : (if k = "TSHIRT-M" then some vA else none) = some v := hv
      split at hv'
      · injection hv' with h2
        rw [← h2]
        decide
      · exact Option.noConfusion hv')
    (fun o' ho' => absurd ho' (List.not_mem_nil o'))
    rfl
  have h2 := h.1 (some "buyer") (some "u1") sA3c oAc rfl
  exact ⟨h2.1, h2.2 "TSHIRT-M"⟩

/-- Witness for C4 on the fresh three-shirt order: the transition New →
Completed is outside the table and is rejected with the state unchanged. -/
theorem c4_transition_legality_witness :
    update_order_status sA2 1 .zavershen (some "fulfillment_admin") =
      (sA2, .error .invalidStatusTransition) :=
  (c4_transition_legality sA2 1 oA .zavershen rfl).1 (by decide)

/-- Witness for C5 on the short-stock scenario: three caps ordered against
stock 2, so the transition to review fails with `InsufficientStock` and
changes nothing. -/
theorem c5_reserve_check_then_act_witness :
    update_order_status sS2 1 .naProverke (some "fulfillment_admin") =
      (sS2, .error .insufficientStock) := by
  have h := c5_reserve_check_then_act sS2 1 oS rfl rfl rfl (by decide)
  refine h.1 ⟨⟨"CAP", 3, 100, 300⟩, ?_, ?_⟩
  · exact List.mem_singleton_self _
  · intro v hv
    have hv' : some (⟨"CAP", none, none, 100, 2, 0, 1⟩ : Variant) = some v := hv
    injection hv' with h2
    rw [← h2]
    decide

/-- Witness for C8 on the reserved three-shirt order: re-reserving is a
no-op. -/
theorem c8_reserve_idempotent_witness :
    reserve_for_order sA2 oAr = .ok (sA2, oAr) :=
  (c8_reserve_idempotent sA2 oAr).1 rfl

/-- Witness for C9: the buyer `u2` cannot cancel `u1`'s order. -/
theorem c9_ownership_buyer_only_witness :
    cancel_order sA2 1 (some "buyer") (some "u2") = (sA2, .error .forbidden) :=
  (c9_ownership_buyer_only sA2 1 oA none rfl).2 "u2" (by decide) (by decide)

/-- Witness for C10: a request for 2000 shirts is rejected at validation
with the state unchanged. -/
theorem c10_checkout_validation_cap_witness :
    create_order_ep sA1 payBig (some "buyer") (some "u1") =
      (sA1, .error .validationError) :=
  c10_checkout_validation_cap sA1 payBig (some "buyer") (some "u1")
    (Or.inr ⟨⟨"TSHIRT-M", 2000⟩, List.mem_singleton_self _, Or.inr (by decide)⟩)

end Merch
